import Mathlib

/-!
# Verification of the base_agent core against its specification

Shallow embedding of the repository's core components and proofs about them:

* `JSONParser.parse_response` (src/agents/common/json_parser.py) — the robust
  JSON parser with three fallback strategies, over an embedded `Json` value
  type, an embedded `json.loads`, and direct implementations of the two
  regex searches the source performs (fenced code block, brace/bracket span).
* `MCPClient.process_query` (src/mcp-client/client.py) — the bounded planning
  loop alternating model calls and sequential tool dispatch, followed by a
  single final-tier synthesis call.
* `StatusMonitorTool.advance_phase` (src/agents/podcast_orchestrator/tools/
  status_monitor.py) with `ResearchService` / `EventService`
  (src/shared/services.py) and `BaseAgent.log_event`
  (src/agents/common/base_agent.py) — the quality-gated phase controller.

Modelling restrictions (documented, load-bearing nowhere in the claims):
JSON numbers are embedded as integers (`Int`); Python parses non-integer
numbers as IEEE floats, which a shallow embedding cannot represent exactly,
and no claim involves a non-integer number.  Python/regex whitespace is
modelled by its ASCII subset.  Surrogate-pair `\uXXXX` escapes are not paired.
-/

namespace BaseAgent

/-! ## Character helpers

Braces and the backtick are written via `Char.ofNat` throughout. -/

def lbrace : Char := Char.ofNat 123

def rbrace : Char := Char.ofNat 125

def lbrack : Char := '['

def rbrack : Char := ']'

def btick : Char := Char.ofNat 96

/-- Python `str.strip()` / regex `\s` whitespace (ASCII subset):
space, tab, newline, carriage return, vertical tab, form feed. -/
def pyWs (c : Char) : Bool :=
  c = ' ' || c = '\t' || c = '\n' || c = '\r' || c = Char.ofNat 11 || c = Char.ofNat 12

/-- JSON whitespace as accepted by `json.loads` between tokens:
space, tab, newline, carriage return (RFC 8259). -/
def jsonWs (c : Char) : Bool :=
  c = ' ' || c = '\t' || c = '\n' || c = '\r'

/-- Skip JSON whitespace (used inside the embedded `json.loads`). -/
def skipWs : List Char → List Char
  | [] => []
  | c :: cs => if jsonWs c then skipWs cs else c :: cs

/-- Python `str.strip()`: drop leading and trailing whitespace. -/
def pyStrip (cs : List Char) : List Char :=
  ((cs.dropWhile pyWs).reverse.dropWhile pyWs).reverse

def isDigitC (c : Char) : Bool := '0' ≤ c && c ≤ '9'

/-- A remainder that cannot extend a parsed digit run: empty or headed by a
non-digit. -/
def numStop : List Char → Bool
  | [] => true
  | c :: _ => !isDigitC c

/-! ## The embedded JSON value type -/

/-- A parsed JSON value.  Python's `json.loads` produces `None`, `bool`,
`int`/`float`, `str`, `list`, `dict`; numbers are restricted to integers
here (see the header comment).  Objects are insertion-ordered key/value
lists, as Python dicts are. -/
inductive Json where
  | null
  | bool (b : Bool)
  | num (n : Int)
  | str (s : String)
  | arr (elems : List Json)
  | obj (members : List (String × Json))

/-- Python `type(x).__name__` for a parsed JSON value, as interpolated into
the type-mismatch message of `JSONParser._validate_type`. -/
def pyTypeName : Json → String
  | .null => "NoneType"
  | .bool _ => "bool"
  | .num _ => "int"
  | .str _ => "str"
  | .arr _ => "list"
  | .obj _ => "dict"

/-- Python dict update `d[k] = v`: if the key is present, its value is
replaced in place (keeping the key's position); otherwise the pair is
appended. -/
def insertKV (ms : List (String × Json)) (k : String) (v : Json) :
    List (String × Json) :=
  match ms with
  | [] => [(k, v)]
  | (k', v') :: rest =>
      if k' = k then (k', v) :: rest else (k', v') :: insertKV rest k v

/-- Building a Python dict from parsed members in order: later duplicate
keys overwrite earlier values (first-occurrence key order). -/
def pyDict (ms : List (String × Json)) : List (String × Json) :=
  ms.foldl (fun acc m => insertKV acc m.1 m.2) []

/-! ## The embedded `json.loads` -/

def hexVal (c : Char) : Option Nat :=
  let p := c.toNat
  if 48 ≤ p && p ≤ 57 then some (p - 48)
  else if 97 ≤ p && p ≤ 102 then some (p - 87)
  else if 65 ≤ p && p ≤ 70 then some (p - 55)
  else none

/-- One-character JSON escapes accepted after a backslash. -/
def unescapeC (c : Char) : Option Char :=
  if c = '"' then some '"'
  else if c = '\\' then some '\\'
  else if c = '/' then some '/'
  else if c = 'b' then some (Char.ofNat 8)
  else if c = 'f' then some (Char.ofNat 12)
  else if c = 'n' then some '\n'
  else if c = 'r' then some '\r'
  else if c = 't' then some '\t'
  else none

/-- Body of a JSON string after the opening quote.  Strict like Python's
`json.loads`: unescaped control characters (below 0x20) are rejected. -/
def parseStrBody (acc : List Char) : List Char → Option (String × List Char)
  | [] => none
  | c :: rest =>
      if c = '"' then some (String.mk acc.reverse, rest)
      else if c = '\\' then
        match rest with
        | [] => none
        | e :: rest' =>
            if e = 'u' then
              match rest' with
              | a :: b :: c2 :: d :: rest'' =>
                  match hexVal a, hexVal b, hexVal c2, hexVal d with
                  | some va, some vb, some vc, some vd =>
                      parseStrBody
                        (Char.ofNat (((va * 16 + vb) * 16 + vc) * 16 + vd) :: acc) rest''
                  | _, _, _, _ => none
              | _ => none
            else
              match unescapeC e with
              | some ch => parseStrBody (ch :: acc) rest'
              | none => none
      else if c.toNat < 32 then none
      else parseStrBody (c :: acc) rest

def takeDigits : List Char → List Char × List Char
  | [] => ([], [])
  | c :: cs =>
      if isDigitC c then
        let (ds, r) := takeDigits cs
        (c :: ds, r)
      else ([], c :: cs)

def digitsToNat (ds : List Char) : Nat :=
  ds.foldl (fun acc c => acc * 10 + (c.toNat - '0'.toNat)) 0

/-- An integer JSON number: optional minus sign, then a digit run.  (Python
additionally accepts fraction/exponent parts, producing floats; out of scope
per the header comment.) -/
def parseIntNum : List Char → Option (Json × List Char)
  | [] => none
  | c :: cs =>
      if c = '-' then
        match takeDigits cs with
        | ([], _) => none
        | (ds, r) => some (.num (-(digitsToNat ds : Int)), r)
      else
        match takeDigits (c :: cs) with
        | ([], _) => none
        | (ds, r) => some (.num ((digitsToNat ds : Int)), r)

mutual
/-- The JSON value grammar, recursing on `fuel` for totality.  `jsonLoads`
below supplies fuel exceeding the input length, which always suffices. -/
def parseVal : Nat → List Char → Option (Json × List Char)
  | 0, _ => none
  | fuel + 1, cs =>
      match skipWs cs with
      | [] => none
      | c :: r =>
          if c = '"' then
            match parseStrBody [] r with
            | some (s, r') => some (.str s, r')
            | none => none
          else if c = lbrace then
            match skipWs r with
            | [] => none
            | c' :: r' =>
                if c' = rbrace then some (.obj [], r')
                else
                  match parseMembers fuel (c' :: r') with
                  | some (ms, r'') => some (.obj (pyDict ms), r'')
                  | none => none
          else if c = '[' then
            match skipWs r with
            | [] => none
            | c' :: r' =>
                if c' = ']' then some (.arr [], r')
                else
                  match parseElems fuel (c' :: r') with
                  | some (es, r'') => some (.arr es, r'')
                  | none => none
          else if c = 'n' then
            match r with
            | 'u' :: 'l' :: 'l' :: r' => some (.null, r')
            | _ => none
          else if c = 't' then
            match r with
            | 'r' :: 'u' :: 'e' :: r' => some (.bool true, r')
            | _ => none
          else if c = 'f' then
            match r with
            | 'a' :: 'l' :: 's' :: 'e' :: r' => some (.bool false, r')
            | _ => none
          else if c = '-' || isDigitC c then parseIntNum (c :: r)
          else none

/-- One or more comma-separated array elements (the empty array is handled
in `parseVal`). -/
def parseElems : Nat → List Char → Option (List Json × List Char)
  | 0, _ => none
  | fuel + 1, cs =>
      match parseVal fuel cs with
      | none => none
      | some (v, r) =>
          match skipWs r with
          | ',' :: r' =>
              match parseElems fuel r' with
              | some (vs, r'') => some (v :: vs, r'')
              | none => none
          | c :: r' => if c = ']' then some ([v], r') else none
          | [] => none

/-- One or more comma-separated object members (the empty object is handled
in `parseVal`). -/
def parseMembers : Nat → List Char → Option (List (String × Json) × List Char)
  | 0, _ => none
  | fuel + 1, cs =>
      match skipWs cs with
      | '"' :: r =>
          match parseStrBody [] r with
          | none => none
          | some (k, r1) =>
              match skipWs r1 with
              | ':' :: r2 =>
                  match parseVal fuel r2 with
                  | none => none
                  | some (v, r3) =>
                      match skipWs r3 with
                      | ',' :: r4 =>
                          match parseMembers fuel r4 with
                          | some (ms, r5) => some ((k, v) :: ms, r5)
                          | none => none
                      | c :: r4 => if c = rbrace then some ([(k, v)], r4) else none
                      | [] => none
              | _ => none
      | _ => none
end

/-- The embedded `json.loads`: parse one JSON document, allowing surrounding
whitespace and rejecting trailing characters. -/
def jsonLoads (cs : List Char) : Option Json :=
  match parseVal (cs.length + 1) cs with
  | some (v, rest) => if skipWs rest = [] then some v else none
  | none => none

/-! ## The embedded `json.dumps` (default separators) and well-formed values

`json.dumps` with default arguments renders objects as key/value pairs
joined by a comma-space, with a colon-space between key and value, and
escapes only the quote and the backslash among printable-ASCII characters.
Well-formedness (`wfJson`) restricts string contents to printable ASCII and
object keys to be duplicate-free, the fragment on which serialization is
injective and Python round-trips exactly. -/

def wfChar (c : Char) : Bool := 32 ≤ c.toNat && c.toNat ≤ 126

/-- JSON escaping of one printable-ASCII character, as `json.dumps` emits it. -/
def escJ (c : Char) : List Char :=
  if c = '"' then ['\\', '"']
  else if c = '\\' then ['\\', '\\']
  else [c]

def escAll : List Char → List Char
  | [] => []
  | c :: cs => escJ c ++ escAll cs

def dumpStr (s : String) : List Char := '"' :: (escAll s.data ++ ['"'])

/-- Decimal digit characters of `n`, most significant first. -/
def natChars (n : Nat) : List Char :=
  if 0 < n then (Nat.digits 10 n).reverse.map (fun d => Char.ofNat (48 + d)) else ['0']

def intChars (i : Int) : List Char :=
  if i < 0 then '-' :: natChars i.natAbs else natChars i.natAbs

mutual
/-- `json.dumps` with default separators, restricted to the embedded values. -/
def dumpJson : Json → List Char
  | .null => "null".data
  | .bool true => "true".data
  | .bool false => "false".data
  | .num n => intChars n
  | .str s => dumpStr s
  | .arr [] => ['[', ']']
  | .arr (x :: xs) => '[' :: (dumpJson x ++ (dumpArrTail xs ++ [']']))
  | .obj [] => [lbrace, rbrace]
  | .obj (m :: ms) => lbrace :: (dumpMember m ++ (dumpObjTail ms ++ [rbrace]))

def dumpMember : String × Json → List Char
  | (k, v) => dumpStr k ++ ':' :: ' ' :: dumpJson v

def dumpArrTail : List Json → List Char
  | [] => []
  | x :: xs => ',' :: ' ' :: (dumpJson x ++ dumpArrTail xs)

def dumpObjTail : List (String × Json) → List Char
  | [] => []
  | m :: ms => ',' :: ' ' :: (dumpMember m ++ dumpObjTail ms)
end

/-- No two members share a key (Python dict keys are unique). -/
def nodupKeys : List (String × Json) → Bool
  | [] => true
  | (k, _) :: ms => ms.all (fun m => !(m.1 = k)) && nodupKeys ms

mutual
/-- Printable-ASCII strings, integer numbers, duplicate-free keys,
recursively. -/
def wfJson : Json → Bool
  | .null => true
  | .bool _ => true
  | .num _ => true
  | .str s => s.data.all wfChar
  | .arr xs => wfList xs
  | .obj ms => nodupKeys ms && wfMembers ms

def wfList : List Json → Bool
  | [] => true
  | x :: xs => wfJson x && wfList xs

def wfMembers : List (String × Json) → Bool
  | [] => true
  | (k, v) :: ms => k.data.all wfChar && wfJson v && wfMembers ms
end

/-! ## The two regex searches of `JSONParser.parse_response`

Strategy 2 uses `re.search` with pattern
three backticks, optional `json`, `\s*`, a lazily-matched brace or bracket
group, `\s*`, three backticks, under `re.DOTALL`; strategy 3 uses greedy
`\s`-free brace/bracket spans.  Both are implemented directly as string
scans with exactly the leftmost/lazy/greedy semantics of the Python
patterns on these alternation-free shapes. -/

def ticks : List Char := [btick, btick, btick]

/-- After the candidate closing character of the lazy group: greedy `\s*`
followed by the literal closing fence.  Since a backtick is not whitespace,
the amount of whitespace consumed is forced. -/
def fenceClose (cs : List Char) : Bool :=
  ticks.isPrefixOf (cs.dropWhile pyWs)

/-- The lazy `.*?` up to the first closing character whose continuation
completes the fence; the close character is included in the result. -/
def lazyCap (close : Char) : List Char → Option (List Char)
  | [] => none
  | c :: rest =>
      if c = close && fenceClose rest then some [c]
      else
        match lazyCap close rest with
        | some tail => some (c :: tail)
        | none => none

/-- Attempt the fenced-block pattern anchored at the head of `cs`, returning
the captured group.  `(?:json)?` is forced: when `json` follows the opening
fence it must be consumed (a `j` can start neither `\s*` nor the group). -/
def fenceFrom (cs : List Char) : Option (List Char) :=
  if ticks.isPrefixOf cs then
    let r1 := cs.drop 3
    let r2 := if ("json".data).isPrefixOf r1 then r1.drop 4 else r1
    match r2.dropWhile pyWs with
    | c :: rest =>
        if c = lbrace then (lazyCap rbrace rest).map (fun tail => c :: tail)
        else if c = '[' then (lazyCap ']' rest).map (fun tail => c :: tail)
        else none
    | [] => none
  else none

/-- `re.search` for the fenced-block pattern: leftmost match wins. -/
def fenceSearch : List Char → Option (List Char)
  | [] => none
  | c :: rest =>
      match fenceFrom (c :: rest) with
      | some g => some g
      | none => fenceSearch rest

/-- The prefix of `cs` up to and including the last occurrence of `close`
(the greedy `.*` under DOTALL), if one exists. -/
def upToLast (close : Char) : List Char → Option (List Char)
  | [] => none
  | c :: rest =>
      match upToLast close rest with
      | some tail => some (c :: tail)
      | none => if c = close then some [c] else none

/-- `re.search` for a greedy `open .* close` span under DOTALL: anchored at
the leftmost opening character, extending to the last closing character. -/
def greedySearch (openC close : Char) : List Char → Option (List Char)
  | [] => none
  | c :: rest =>
      if c = openC then
        match upToLast close rest with
        | some tail => some (c :: tail)
        | none => greedySearch openC close rest
      else greedySearch openC close rest

/-! ## `JSONParser.parse_response` (src/agents/common/json_parser.py) -/

/-- `expected_type`: the three values the callers pass
(`"dict"`, `"list"`, `"auto"`). -/
inductive ExpectedType where
  | dict
  | list
  | auto

def kindName : ExpectedType → String
  | .dict => "dict"
  | .list => "list"
  | .auto => "auto"

/-- An expected type matching a value's structure: a mapping for `dict`, a
sequence for `list`, anything for `auto`. -/
def kindMatches : ExpectedType → Json → Bool
  | .auto, _ => true
  | .dict, .obj _ => true
  | .list, .arr _ => true
  | _, _ => false

namespace JSONParser

/-- The interpolated message of `JSONParser._validate_type`'s
`JSONParsingError`. -/
def mismatchMsg (p : Json) (t : ExpectedType) : String :=
  "Parsed JSON type " ++ pyTypeName p ++ " doesn\x27t match expected " ++ kindName t

/-- `JSONParser._validate_type`: accept the parsed value when its structure
matches the expected type, otherwise raise (modelled as `.error`). -/
def validate_type (parsed : Json) (t : ExpectedType) : Except String Json :=
  match t with
  | .auto => .ok parsed
  | .dict =>
      match parsed with
      | .obj ms => .ok (.obj ms)
      | p => .error (mismatchMsg p .dict)
  | .list =>
      match parsed with
      | .arr es => .ok (.arr es)
      | p => .error (mismatchMsg p .list)

/-- The message of the final `JSONParsingError` when every strategy failed:
expected kind plus the first 200 characters of the raw response. -/
def allFailedMsg (response : String) (t : ExpectedType) : String :=
  "Failed to parse JSON from response. Expected " ++ kindName t ++
    ". Raw response: " ++ String.mk (response.data.take 200) ++ "..."

/-- `expected_type in ["dict", "auto"]`. -/
def inDictAuto : ExpectedType → Bool
  | .dict => true
  | .auto => true
  | .list => false

/-- `expected_type in ["list", "auto"]`. -/
def inListAuto : ExpectedType → Bool
  | .list => true
  | .auto => true
  | .dict => false

/-- The bracket-span half of strategy 3.  Reached only when the brace branch
did not run or found no match: a decode failure inside the brace branch is a
`json.JSONDecodeError` caught by the strategy's single `except`, which skips
this half and falls through to the final raise. -/
def strategy3List (response : String) (t : ExpectedType) : Except String Json :=
  if inListAuto t then
    match greedySearch '[' ']' response.data with
    | some span =>
        match jsonLoads span with
        | some parsed => validate_type parsed t
        | none => .error (allFailedMsg response t)
    | none => .error (allFailedMsg response t)
  else .error (allFailedMsg response t)

/-- Strategy 3 (lines 52–68): greedy brace span when a dict may be expected,
then greedy bracket span when a list may be expected, one shared
`except json.JSONDecodeError` around both. -/
def strategy3 (response : String) (t : ExpectedType) : Except String Json :=
  if inDictAuto t then
    match greedySearch lbrace rbrace response.data with
    | some span =>
        match jsonLoads span with
        | some parsed => validate_type parsed t
        | none => .error (allFailedMsg response t)
    | none => strategy3List response t
  else strategy3List response t

/-- `JSONParser.parse_response`: empty-input guard, then the three
strategies in order.  Each strategy's `try` catches only
`json.JSONDecodeError`, so a `JSONParsingError` raised by
`_validate_type` propagates immediately (modelled by returning its
`.error`). -/
def parse_response (response : String) (t : ExpectedType) : Except String Json :=
  if pyStrip response.data = [] then .error "Empty response provided"
  else
    match jsonLoads (pyStrip response.data) with
    | some parsed => validate_type parsed t
    | none =>
        match fenceSearch response.data with
        | some body =>
            match jsonLoads body with
            | some parsed => validate_type parsed t
            | none => strategy3 response t
        | none => strategy3 response t

end JSONParser

/-! ## `MCPClient.process_query` (src/mcp-client/client.py)

The planning loop alternates calls to the low-cost planning tier with
sequential dispatch of the tool calls it requests, bounded by
`max_loops = 25`, then issues one call to the final tier with tool use
disabled (`tool_choice="none"`) and returns its stripped text.

The two model tiers are collaborators (§6 of the spec): they are embedded as
functions producing a `ModelResponse`; the planning tier additionally
receives the number of planning calls made so far, so that scripted models
can be expressed — the source passes the transcript, of which a script is a
special case that ignores it.  The tool channel is embedded as a function
returning either a transport failure (an exception escaping
`session.call_tool`, which the source does not catch) or a result whose
content the source joins into text — a tool-level error arrives as an
ordinary result carrying the stringified error as content (`isError` is not
inspected by the source).  The tool-schema list built at lines 74–87 is
passed opaquely to both tiers and does not influence the control flow. -/

/-- The fields of a `function_call` output event the source reads. -/
structure FCall where
  name : String
  arguments : String
  callId : String
deriving DecidableEq

inductive ContentItem where
  | outputText (text : String)
  | otherContent

inductive OutputEvent where
  | message (content : List ContentItem)
  | functionCall (call : FCall)
  | otherEvent

/-- A model response: the `output` event list the source iterates over. -/
structure ModelResponse where
  output : List OutputEvent

def itemText : ContentItem → String
  | .outputText t => t
  | .otherContent => ""

def eventText : OutputEvent → String
  | .message content => String.join (content.map itemText)
  | .functionCall _ => ""
  | .otherEvent => ""

/-- `assistant_message_buffer`: all `output_text` pieces of `message`
events, concatenated in order. -/
def collectText (r : ModelResponse) : String :=
  String.join (r.output.map eventText)

/-- `tool_calls`: the `function_call` events, in order. -/
def collectCalls (r : ModelResponse) : List FCall :=
  r.output.filterMap fun e =>
    match e with
    | .functionCall c => some c
    | _ => none

/-- A transcript entry appended to `messages`. -/
inductive Msg where
  | userMsg (content : String)
  | assistantMsg (content : String)
  | functionCallMsg (name : String) (arguments : String) (callId : String)
  | functionCallOutputMsg (callId : String) (output : String)
deriving DecidableEq

inductive ToolContent where
  | textContent (text : String)
  | nonText

/-- What `session.call_tool` returns on the non-exceptional path.  A
tool-level failure is such a result whose content is the stringified error
(`isError = true`); the source reads only `content`. -/
structure ToolResult where
  content : List ToolContent
  isError : Bool

inductive TransportErr where
  | transportError
deriving DecidableEq

/-- The tool execution channel: raising = `.error` (transport failure). -/
def Channel : Type := String → Json → Except TransportErr ToolResult

/-- `"".join(c.text for c in tool_result.content if hasattr(c, "text"))`. -/
def toolOutputText (tr : ToolResult) : String :=
  String.join (tr.content.map fun c =>
    match c with
    | .textContent t => t
    | .nonText => "")

/-- An entry of `final_chunks` (written but never read by the source; kept
for fidelity, with the tool-call announcement held structured rather than
via Python's dict `repr`). -/
inductive Chunk where
  | textChunk (text : String)
  | callingChunk (name : String) (args : Json)

structure LoopState where
  msgs : List Msg
  planningCalls : Nat
  batches : List (List FCall)
  dispatched : List FCall
  finalChunks : List Chunk

/-- `json.loads(call_event.arguments)` with `{}` on a decode error. -/
def argsOf (c : FCall) : Json :=
  (jsonLoads c.arguments.data).getD (Json.obj [])

def pyStripStr (s : String) : String := String.mk (pyStrip s.data)

/-- Lines 134–164: execute each tool call sequentially, in the order
received.  A transport failure (`.error` from the channel) is an uncaught
exception: it aborts the whole dispatch, keeping what was appended so far
(the `.error` carries the state at the abort). -/
def dispatchCalls (channel : Channel) : List FCall → LoopState → Except LoopState LoopState
  | [], st => .ok st
  | c :: rest, st =>
      match channel c.name (argsOf c) with
      | .error _ => .error st
      | .ok tr =>
          dispatchCalls channel rest
            { st with
              msgs := st.msgs ++
                [.functionCallMsg c.name c.arguments c.callId,
                 .functionCallOutputMsg c.callId (toolOutputText tr)],
              dispatched := st.dispatched ++ [c],
              finalChunks := st.finalChunks ++ [.callingChunk c.name (argsOf c)] }

/-- `max_loops = 25`. -/
def maxLoops : Nat := 25

/-- Lines 119–127: when the assistant text is non-empty after stripping,
append it to the transcript (and to `final_chunks`) before any tool
dispatch of this iteration. -/
def appendAssistant (st : LoopState) (buffer : String) : LoopState :=
  if pyStrip buffer.data = [] then st
  else
    { st with
      msgs := st.msgs ++ [.assistantMsg (pyStripStr buffer)],
      finalChunks := st.finalChunks ++ [.textChunk (pyStripStr buffer)] }

/-- The `while loop_counter < max_loops` loop, on remaining-iterations fuel:
one planning call, append the stripped assistant text when non-empty, stop
when no tool calls were requested, otherwise dispatch the batch and
continue. -/
def runLoop (planning : Nat → List Msg → ModelResponse) (channel : Channel) :
    Nat → LoopState → Except LoopState LoopState
  | 0, st => .ok st
  | fuel + 1, st =>
      let resp := planning st.planningCalls st.msgs
      let calls := collectCalls resp
      let st2 : LoopState :=
        appendAssistant { st with planningCalls := st.planningCalls + 1 } (collectText resp)
      if calls.isEmpty then .ok st2
      else
        match dispatchCalls channel calls { st2 with batches := st2.batches ++ [calls] } with
        | .error st' => .error st'
        | .ok st' => runLoop planning channel fuel st'

inductive Outcome where
  | answered (text : String)
  | abortedTransport
deriving DecidableEq

/-- An instrumented account of one `process_query` run. -/
structure Run where
  planningCalls : Nat
  batches : List (List FCall)
  dispatched : List FCall
  finalTierCalls : Nat
  transcript : List Msg
  outcome : Outcome

def initState (query : String) : LoopState :=
  ⟨[.userMsg query], 0, [], [], []⟩

/-- `process_query`, instrumented: the loop, then (unless a transport
failure escaped) exactly one final-tier call whose stripped joined text is
the answer. -/
def process_query_run (planning : Nat → List Msg → ModelResponse)
    (finalModel : List Msg → ModelResponse) (channel : Channel) (query : String) : Run :=
  match runLoop planning channel maxLoops (initState query) with
  | .error st => ⟨st.planningCalls, st.batches, st.dispatched, 0, st.msgs, .abortedTransport⟩
  | .ok st =>
      ⟨st.planningCalls, st.batches, st.dispatched, 1, st.msgs,
        .answered (pyStripStr (collectText (finalModel st.msgs)))⟩

/-- `process_query` as callers observe it: the returned string, or the
escaped transport exception. -/
def process_query (planning : Nat → List Msg → ModelResponse)
    (finalModel : List Msg → ModelResponse) (channel : Channel) (query : String) :
    Except TransportErr String :=
  match runLoop planning channel maxLoops (initState query) with
  | .error _ => .error .transportError
  | .ok st => .ok (pyStripStr (collectText (finalModel st.msgs)))

/-- A scripted planning model: its `i`-th response is the `i`-th entry of
the script (an empty response past the end), ignoring the transcript. -/
def scriptedPlanning (script : List ModelResponse) : Nat → List Msg → ModelResponse :=
  fun i _ => (script[i]?).getD ⟨[]⟩

/-! ## `StatusMonitorTool.advance_phase`
(src/agents/podcast_orchestrator/tools/status_monitor.py)

Persistence is embedded as a `Store`: brief statuses keyed by id, per-brief
persisted counts, and the append-only event log.  Each service call runs in
its own `session_scope` transaction (src/shared/database.py):
`update_brief_status` commits on its own, and the subsequent
`log_event` is a separate transaction whose failure `BaseAgent.log_event`
catches, printing a warning (src/agents/common/base_agent.py lines 43–60).
`eventSinkOk` models whether that event transaction commits. -/

inductive BriefStatus where
  | pending
  | inProgress
  | completed
  | failed
deriving DecidableEq

/-- The `ResearchStatus` string values (src/shared/models.py). -/
def statusName : BriefStatus → String
  | .pending => "pending"
  | .inProgress => "in_progress"
  | .completed => "completed"
  | .failed => "failed"

/-- The persisted per-brief counts `get_research_progress` queries. -/
structure BriefCounts where
  totalQueries : Nat
  completedQueries : Nat
  totalItems : Nat
  verifiedItems : Nat
  totalClaims : Nat
  verifiedClaims : Nat

/-- The progress dict returned by `ResearchService.get_research_progress`,
with the completion percentage as an exact rational. -/
structure Progress where
  briefId : Int
  totalQueries : Nat
  completedQueries : Nat
  totalItems : Nat
  verifiedItems : Nat
  totalClaims : Nat
  verifiedClaims : Nat
  completionPercentage : ℚ

/-- The payload of a `phase_advanced` audit event: old status, new status,
and the progress-metrics snapshot. -/
structure AgentEventRec where
  briefId : Int
  agentName : String
  eventType : String
  message : String
  payloadOldStatus : BriefStatus
  payloadNewStatus : BriefStatus
  payloadMetrics : Progress

structure Store where
  briefs : Int → Option BriefStatus
  counts : Int → BriefCounts
  events : List AgentEventRec
  eventSinkOk : Bool

/-- `ResearchService.get_research_progress` (src/shared/services.py
lines 105–149). -/
def get_research_progress (st : Store) (briefId : Int) : Progress :=
  let c := st.counts briefId
  { briefId := briefId
    totalQueries := c.totalQueries
    completedQueries := c.completedQueries
    totalItems := c.totalItems
    verifiedItems := c.verifiedItems
    totalClaims := c.totalClaims
    verifiedClaims := c.verifiedClaims
    completionPercentage :=
      if 0 < c.totalQueries then (c.completedQueries : ℚ) / (c.totalQueries : ℚ) * 100 else 0 }

/-- `ResearchService.update_brief_status`: sets the status when the brief
exists (its own committed transaction). -/
def update_brief_status (st : Store) (briefId : Int) (newStatus : BriefStatus) : Store :=
  { st with
    briefs := fun i =>
      if i = briefId then
        match st.briefs i with
        | some _ => some newStatus
        | none => none
      else st.briefs i }

/-- `BaseAgent.log_event`: append the event in its own transaction; a
persistence failure is caught and only warned about, leaving the log
unchanged. -/
def log_event (st : Store) (e : AgentEventRec) : Store :=
  if st.eventSinkOk then { st with events := st.events ++ [e] } else st

/-- `AgentConfig.ORCHESTRATOR` (src/agents/common/config.py lines 55–63),
modelled by its numeric leaves — the only config values `advance_phase`
reads (`cycle_configs` is never read by the embedded code). -/
def ORCHESTRATOR : List (String × ℚ) :=
  [("completion_threshold", 80), ("min_verified_items", 5)]

/-- `AgentConfig.get_agent_config` (src/agents/common/config.py lines
65–74): the config map is keyed `"podcast_orchestrator"` (underscore), and
`.get(agent_name, \x7b\x7d)` yields the empty dict on any other name.  The
other agents' entries are elided: no embedded code reads them. -/
def get_agent_config (agentName : String) : List (String × ℚ) :=
  if agentName = "podcast_orchestrator" then ORCHESTRATOR else []

/-- `PodcastOrchestratorAgent.__init__` passes `name="podcast-orchestrator"`
(hyphen, src/agents/podcast_orchestrator/agent.py line 21);
`BaseAgent.__init__` stores it as `self.name`. -/
def orchestratorName : String := "podcast-orchestrator"

/-- `self.config` of the orchestrator agent: `BaseAgent.__init__` sets
`self.config = AgentConfig.get_agent_config(name)` with the hyphenated
name, which misses the underscore key of the config map. -/
def orchestratorConfig : List (String × ℚ) := get_agent_config orchestratorName

/-- Python dict subscript `d[key]`: the value, or a raised `KeyError` whose
`str` is the key wrapped in single quotes. -/
def dictGet (d : List (String × ℚ)) (key : String) : Except String ℚ :=
  match d.find? (fun kv => kv.1 = key) with
  | some kv => .ok kv.2
  | none => .error ("\x27" ++ key ++ "\x27")

/-- An entry of `requirements_met`, holding the data the source's f-strings
interpolate (the prose around the numbers is fixed text). -/
inductive ReqMsg where
  | briefCreatedValidated
  | queryCompletion (pct : ℚ)
  | verifiedItemsCount (n : Nat)
  | claimsGathered (n : Nat)
  | needCompletion (threshold : ℚ) (avail : ℚ)
  | needVerified (minItems : ℚ) (avail : Nat)
  | considerMoreCycles

/-- `StatusMonitorTool._get_next_actions`: dict lookup with a default. -/
def get_next_actions : BriefStatus → List String
  | .pending =>
      ["Run clarification agent if needed", "Begin initial query formulation",
       "Start research cycle"]
  | .inProgress =>
      ["Continue research cycles", "Monitor quality metrics",
       "Validate and verify sources"]
  | .completed =>
      ["Begin script generation", "Review and finalize manuscript",
       "Prepare for delivery"]
  | .failed => ["No specific actions defined"]

/-- The response dict of `advance_phase`: the error shape of
`create_error_response`, or one of the two success shapes (`phase_changed`
true/false) of `create_success_response`. -/
inductive AdvanceResult where
  | errorResp (error : String)
  | advanced (briefId : Int) (oldPhase : BriefStatus) (newPhase : BriefStatus)
      (requirementsMet : List ReqMsg) (nextActionsList : List String) (message : String)
  | notReady (briefId : Int) (currentPhase : BriefStatus) (readyToAdvance : Bool)
      (requirementsMet : List ReqMsg) (message : String)

/-- `StatusMonitorTool.advance_phase` (lines 84–169), returning the
response together with the stores state after it.  `ValidationService.
validate_brief_id` rejects non-positive ids (the raised `ValidationError`
is caught by the trailing `except`, producing an error response).  The
in-progress branch reads `self.agent.config["completion_threshold"]` and
`["min_verified_items"]`; since `orchestratorConfig` is empty (the agent
name misses the config map's key), the subscript raises `KeyError`, which
the trailing `except` turns into an error response — modelled by the
`Except` plan. -/
def advance_phase (st : Store) (briefId : Int) (forceAdvance : Bool) :
    AdvanceResult × Store :=
  if briefId ≤ 0 then (.errorResp "Brief ID must be a positive integer", st)
  else
    match st.briefs briefId with
    | none => (.errorResp "Research brief not found", st)
    | some currentStatus =>
        let progress := get_research_progress st briefId
        let phasePlan : Except String (Option BriefStatus × Bool × List ReqMsg) :=
          match currentStatus with
          | .pending => .ok (some .inProgress, true, [.briefCreatedValidated])
          | .inProgress =>
              match dictGet orchestratorConfig "completion_threshold" with
              | .error e => .error e
              | .ok completionThreshold =>
                  match dictGet orchestratorConfig "min_verified_items" with
                  | .error e => .error e
                  | .ok minVerifiedItems =>
                      if (completionThreshold ≤ progress.completionPercentage ∧
                            minVerifiedItems ≤ (progress.verifiedItems : ℚ)) ∨
                          forceAdvance = true then
                        .ok (some .completed, true,
                          [.queryCompletion progress.completionPercentage,
                           .verifiedItemsCount progress.verifiedItems,
                           .claimsGathered progress.totalClaims])
                      else
                        .ok (none, false,
                          [.needCompletion completionThreshold
                             progress.completionPercentage,
                           .needVerified minVerifiedItems progress.verifiedItems,
                           .considerMoreCycles])
          | .completed => .ok (none, false, [])
          | .failed => .ok (none, false, [])
        match phasePlan with
        | .error e => (.errorResp e, st)
        | .ok (some next, true, requirementsMet) =>
            let st1 := update_brief_status st briefId next
            let st2 := log_event st1
              { briefId := briefId
                agentName := orchestratorName
                eventType := "phase_advanced"
                message := "Advanced from " ++ statusName currentStatus ++ " to " ++
                  statusName next
                payloadOldStatus := currentStatus
                payloadNewStatus := next
                payloadMetrics := progress }
            (.advanced briefId currentStatus next requirementsMet (get_next_actions next)
               ("Successfully advanced to " ++ statusName next), st2)
        | .ok (_, readyToAdvance, requirementsMet) =>
            (.notReady briefId currentStatus readyToAdvance
               requirementsMet "Research not ready to advance to next phase", st)


/-! # Claim theorems -/

/-! ## Supporting lemmas -/

theorem pyStrip_nil_of_all (l : List Char) (h : l.all pyWs = true) : pyStrip l = [] := by
  have h1 : l.dropWhile pyWs = [] := by
    induction l with
    | nil => rfl
    | cons c cs ih =>
        simp only [List.all_cons, Bool.and_eq_true] at h
        simp [List.dropWhile_cons, h.1, ih h.2]
  simp [pyStrip, h1]

/-! ## C10 -/

/-- C10: an empty or all-whitespace response raises `JSONParsingError` with
the fixed message, which mentions no expected kind. -/
theorem c10_empty_response_guard (s : String) (t : ExpectedType)
    (h : s.data.all pyWs = true) :
    JSONParser.parse_response s t = .error "Empty response provided" ∧
    ¬ List.IsInfix (kindName t).data ("Empty response provided".data) := by
  constructor
  · simp [JSONParser.parse_response, pyStrip_nil_of_all s.data h]
  · cases t <;> decide

theorem c10_witness :
    ("   ".data.all pyWs = true) ∧
    (JSONParser.parse_response "   " .dict = .error "Empty response provided" ∧
      ¬ List.IsInfix (kindName .dict).data ("Empty response provided".data)) :=
  ⟨by decide, c10_empty_response_guard "   " .dict (by decide)⟩

/-! ## C9 -/

/-- C9: when every strategy fails — the stripped text does not load, any
fenced-block capture does not load, and any greedy brace/bracket span does
not load — `parse_response` raises `JSONParsingError` whose message carries
the expected kind and the first 200 characters of the raw response. -/
theorem c9_failure_message (s : String) (t : ExpectedType)
    (h0 : pyStrip s.data ≠ [])
    (h1 : jsonLoads (pyStrip s.data) = none)
    (h2 : ∀ b, fenceSearch s.data = some b → jsonLoads b = none)
    (h3 : ∀ sp, greedySearch lbrace rbrace s.data = some sp → jsonLoads sp = none)
    (h4 : ∀ sp, greedySearch '[' ']' s.data = some sp → jsonLoads sp = none) :
    JSONParser.parse_response s t =
      .error ("Failed to parse JSON from response. Expected " ++ kindName t ++
        ". Raw response: " ++ String.mk (s.data.take 200) ++ "...") := by
  have hs3 : JSONParser.strategy3List s t = .error (JSONParser.allFailedMsg s t) := by
    unfold JSONParser.strategy3List
    cases hb : greedySearch '[' ']' s.data with
    | none => cases t <;> simp [JSONParser.inListAuto]
    | some sp => cases t <;> simp [JSONParser.inListAuto, h4 sp hb]
  have hs : JSONParser.strategy3 s t = .error (JSONParser.allFailedMsg s t) := by
    unfold JSONParser.strategy3
    cases hb : greedySearch lbrace rbrace s.data with
    | none => cases t <;> simp [JSONParser.inDictAuto, hs3]
    | some sp => cases t <;> simp [JSONParser.inDictAuto, h3 sp hb, hs3]
  have hmsg : JSONParser.allFailedMsg s t =
      "Failed to parse JSON from response. Expected " ++ kindName t ++
        ". Raw response: " ++ String.mk (s.data.take 200) ++ "..." := rfl
  unfold JSONParser.parse_response
  rw [if_neg h0]
  cases hf : fenceSearch s.data with
  | none => simp [h1, hf, hs, hmsg]
  | some b => simp [h1, hf, h2 b hf, hs, hmsg]

theorem c9_witness :
    (pyStrip "no json here".data ≠ [] ∧
      jsonLoads (pyStrip "no json here".data) = none) ∧
    JSONParser.parse_response "no json here" .dict =
      .error ("Failed to parse JSON from response. Expected " ++ kindName .dict ++
        ". Raw response: " ++ String.mk ("no json here".data.take 200) ++ "...") :=
  ⟨⟨by decide, rfl⟩,
    c9_failure_message "no json here" .dict (by decide) rfl
      (fun b hb => Option.noConfusion
        (show (none : Option (List Char)) = some b from hb))
      (fun sp hsp => Option.noConfusion
        (show (none : Option (List Char)) = some sp from hsp))
      (fun sp hsp => Option.noConfusion
        (show (none : Option (List Char)) = some sp from hsp))⟩

/-! ## C7 -/

/-- C7 counterexample: on `[1, {"a": 2}]` with expected type dict, strategy 1
yields a list candidate, and the call fails right there with the
type-mismatch error — even though the strategy-3 brace span parses to a
dict, so trying the next strategy would have succeeded. -/
theorem c7_counterexample :
    JSONParser.parse_response "[1, \x7b\"a\": 2\x7d]" .dict =
      .error ("Parsed JSON type list doesn\x27t match expected dict") ∧
    greedySearch lbrace rbrace ("[1, \x7b\"a\": 2\x7d]".data) =
      some ("\x7b\"a\": 2\x7d".data) ∧
    jsonLoads ("\x7b\"a\": 2\x7d".data) = some (.obj [("a", .num 2)]) :=
  ⟨rfl, rfl, rfl⟩

/-- C7 amended: a candidate produced by strategy 1 or strategy 2 whose
structure does not match the expected type makes `parse_response` raise the
type-mismatch `JSONParsingError` at that point; later strategies are not
tried. -/
theorem c7_mismatch_raises (s : String) (t : ExpectedType) :
    (∀ p m, pyStrip s.data ≠ [] →
      jsonLoads (pyStrip s.data) = some p →
      JSONParser.validate_type p t = .error m →
      JSONParser.parse_response s t = .error m) ∧
    (∀ b p m, pyStrip s.data ≠ [] →
      jsonLoads (pyStrip s.data) = none →
      fenceSearch s.data = some b →
      jsonLoads b = some p →
      JSONParser.validate_type p t = .error m →
      JSONParser.parse_response s t = .error m) := by
  constructor
  · intro p m h0 h1 hv
    unfold JSONParser.parse_response
    rw [if_neg h0]
    simp [h1, hv]
  · intro b p m h0 h1 hf hb hv
    unfold JSONParser.parse_response
    rw [if_neg h0]
    simp [h1, hf, hb, hv]

theorem c7_mismatch_raises_witness :
    (pyStrip "[1, \x7b\"a\": 2\x7d]".data ≠ [] ∧
      jsonLoads (pyStrip "[1, \x7b\"a\": 2\x7d]".data) =
        some (.arr [.num 1, .obj [("a", .num 2)]]) ∧
      JSONParser.validate_type (.arr [.num 1, .obj [("a", .num 2)]]) .dict =
        .error ("Parsed JSON type list doesn\x27t match expected dict")) ∧
    JSONParser.parse_response "[1, \x7b\"a\": 2\x7d]" .dict =
      .error ("Parsed JSON type list doesn\x27t match expected dict") :=
  ⟨⟨by decide, rfl, rfl⟩,
    (c7_mismatch_raises "[1, \x7b\"a\": 2\x7d]" .dict).1
      (.arr [.num 1, .obj [("a", .num 2)]])
      ("Parsed JSON type list doesn\x27t match expected dict")
      (by decide) rfl rfl⟩

/-! ## C5 -/

/-- C5: on a brief in a terminal phase (completed or failed), `advance_phase`
is a no-op: the store (statuses and event log) is unchanged, and the
response reports `phase_changed=false` with `ready_to_advance=false`. -/
theorem c5_terminal_no_op (st : Store) (briefId : Int) (force : Bool)
    (status : BriefStatus) (hpos : 0 < briefId)
    (hst : st.briefs briefId = some status)
    (hterm : status = .completed ∨ status = .failed) :
    (advance_phase st briefId force).1 =
      .notReady briefId status false [] "Research not ready to advance to next phase" ∧
    (advance_phase st briefId force).2 = st := by
  have hneg : ¬ briefId ≤ 0 := by omega
  rcases hterm with rfl | rfl <;> simp [advance_phase, hneg, hst]

theorem c5_witness :
    (0 < (1 : Int) ∧
      (Store.mk (fun i => if i = 1 then some .completed else none)
          (fun _ => ⟨10, 9, 0, 6, 0, 0⟩) [] true).briefs 1 = some .completed) ∧
    ((advance_phase
        (Store.mk (fun i => if i = 1 then some .completed else none)
          (fun _ => ⟨10, 9, 0, 6, 0, 0⟩) [] true) 1 true).1 =
      .notReady 1 .completed false [] "Research not ready to advance to next phase" ∧
      (advance_phase
        (Store.mk (fun i => if i = 1 then some .completed else none)
          (fun _ => ⟨10, 9, 0, 6, 0, 0⟩) [] true) 1 true).2 =
        Store.mk (fun i => if i = 1 then some .completed else none)
          (fun _ => ⟨10, 9, 0, 6, 0, 0⟩) [] true) :=
  ⟨⟨by decide, rfl⟩,
    c5_terminal_no_op _ 1 true .completed (by decide) rfl (Or.inl rfl)⟩

/-! ## C4 -/

/-- C4: the claimed in-progress quality gate never fires.  The orchestrator
agent is constructed with the hyphenated name, which misses the config map
key (underscored), so `self.config` is the empty dict and the in-progress
branch raises `KeyError(\x27completion_threshold\x27)` — caught by the
trailing `except` into an error response.  For every in-progress brief,
all metrics and both force values, `advance_phase` returns the `KeyError`
error response and leaves the store untouched; in particular the
10-queries/9-completed/6-verified scenario does not advance. -/
theorem c4_threshold_keyerror (st : Store) (briefId : Int) (force : Bool)
    (hpos : 0 < briefId) (hst : st.briefs briefId = some .inProgress) :
    (advance_phase st briefId force).1 =
      .errorResp "\x27completion_threshold\x27" ∧
    (advance_phase st briefId force).2 = st := by
  have hneg : ¬ briefId ≤ 0 := by omega
  constructor <;>
    simp [advance_phase, hneg, hst, dictGet, orchestratorConfig, get_agent_config,
      orchestratorName]

theorem c4_keyerror_witness :
    (0 < (1 : Int) ∧
      (Store.mk (fun i => if i = 1 then some .inProgress else none)
        (fun _ => ⟨10, 9, 0, 6, 0, 0⟩) [] true).briefs 1 = some .inProgress) ∧
    ((advance_phase
        (Store.mk (fun i => if i = 1 then some .inProgress else none)
          (fun _ => ⟨10, 9, 0, 6, 0, 0⟩) [] true) 1 false).1 =
      .errorResp "\x27completion_threshold\x27" ∧
      (advance_phase
        (Store.mk (fun i => if i = 1 then some .inProgress else none)
          (fun _ => ⟨10, 9, 0, 6, 0, 0⟩) [] true) 1 false).2 =
        Store.mk (fun i => if i = 1 then some .inProgress else none)
          (fun _ => ⟨10, 9, 0, 6, 0, 0⟩) [] true) :=
  ⟨⟨by decide, rfl⟩,
    c4_threshold_keyerror
      (Store.mk (fun i => if i = 1 then some .inProgress else none)
        (fun _ => ⟨10, 9, 0, 6, 0, 0⟩) [] true) 1 false (by decide) rfl⟩

/-! ## C6 -/

/-- C6 counterexample: on a pending brief (the one phase transition the
code can still perform) with the event sink failing, `advance_phase`
reports a successful transition and persists the new status, while no
audit event is appended — the status update and the audit event are not
committed atomically. -/
theorem c6_counterexample :
    ((advance_phase (Store.mk (fun i => if i = 1 then some .pending else none)
        (fun _ => ⟨10, 9, 0, 6, 0, 0⟩) [] false) 1 false).1 =
      .advanced 1 .pending .inProgress [.briefCreatedValidated]
        (get_next_actions .inProgress) "Successfully advanced to in_progress") ∧
    (advance_phase (Store.mk (fun i => if i = 1 then some .pending else none)
        (fun _ => ⟨10, 9, 0, 6, 0, 0⟩) [] false) 1 false).2.briefs 1 =
      some .inProgress ∧
    (advance_phase (Store.mk (fun i => if i = 1 then some .pending else none)
        (fun _ => ⟨10, 9, 0, 6, 0, 0⟩) [] false) 1 false).2.events = [] := by
  refine ⟨?_, ?_, ?_⟩ <;>
    (norm_num [advance_phase, get_research_progress, update_brief_status, log_event,
      statusName]
     try rfl)

/-- C6 amended: every transition `advance_phase` reports as successful is
persisted in two separate transactions, not one atomic commit: the status
update commits first and unconditionally; the audit event (named after the
hyphenated agent, carrying old phase, new phase and the metrics snapshot)
is appended exactly when its own transaction succeeds, and its failure is
caught, leaving the already-committed status update in place. -/
theorem c6_two_transactions (st st' : Store) (briefId : Int) (force : Bool)
    (old new : BriefStatus) (reqs : List ReqMsg) (acts : List String) (m : String)
    (h : advance_phase st briefId force = (.advanced briefId old new reqs acts m, st')) :
    st'.briefs briefId = some new ∧
    (st.eventSinkOk = true →
      st'.events = st.events ++
        [⟨briefId, "podcast-orchestrator", "phase_advanced",
          "Advanced from " ++ statusName old ++ " to " ++ statusName new,
          old, new, get_research_progress st briefId⟩]) ∧
    (st.eventSinkOk = false → st'.events = st.events) := by
  simp only [advance_phase] at h
  split at h
  · simp at h
  · split at h
    · simp at h
    · rename_i currentStatus heq
      split at h
      · simp at h
      · -- the `.ok (some next, true, requirements)` success branch
        simp only [Prod.mk.injEq, AdvanceResult.advanced.injEq] at h
        obtain ⟨⟨-, hold, hnew, -, -, -⟩, hst'⟩ := h
        subst hold hnew hst'
        refine ⟨?_, ?_, ?_⟩
        · cases hs : st.eventSinkOk <;>
            simp [log_event, update_brief_status, hs, heq]
        · intro hs; simp [log_event, update_brief_status, hs, orchestratorName]
        · intro hs; simp [log_event, update_brief_status, hs]
      · simp at h

theorem c6_two_transactions_witness :
    (advance_phase (Store.mk (fun i => if i = 1 then some .pending else none)
        (fun _ => ⟨10, 9, 0, 6, 0, 0⟩) [] true) 1 false =
      (.advanced 1 .pending .inProgress [.briefCreatedValidated]
        (get_next_actions .inProgress) "Successfully advanced to in_progress",
       (advance_phase (Store.mk (fun i => if i = 1 then some .pending else none)
          (fun _ => ⟨10, 9, 0, 6, 0, 0⟩) [] true) 1 false).2)) ∧
    ((advance_phase (Store.mk (fun i => if i = 1 then some .pending else none)
        (fun _ => ⟨10, 9, 0, 6, 0, 0⟩) [] true) 1 false).2.briefs 1 =
        some .inProgress ∧
      ((Store.mk (fun i => if i = 1 then some .pending else none)
          (fun _ => ⟨10, 9, 0, 6, 0, 0⟩) [] true : Store).eventSinkOk = true →
        (advance_phase (Store.mk (fun i => if i = 1 then some .pending else none)
          (fun _ => ⟨10, 9, 0, 6, 0, 0⟩) [] true) 1 false).2.events =
          (Store.mk (fun i => if i = 1 then some .pending else none)
            (fun _ => ⟨10, 9, 0, 6, 0, 0⟩) [] true : Store).events ++
            [⟨1, "podcast-orchestrator", "phase_advanced",
              "Advanced from " ++ statusName .pending ++ " to " ++
                statusName .inProgress,
              .pending, .inProgress,
              get_research_progress (Store.mk
                (fun i => if i = 1 then some .pending else none)
                (fun _ => ⟨10, 9, 0, 6, 0, 0⟩) [] true) 1⟩]) ∧
      ((Store.mk (fun i => if i = 1 then some .pending else none)
          (fun _ => ⟨10, 9, 0, 6, 0, 0⟩) [] true : Store).eventSinkOk = false →
        (advance_phase (Store.mk (fun i => if i = 1 then some .pending else none)
          (fun _ => ⟨10, 9, 0, 6, 0, 0⟩) [] true) 1 false).2.events =
          (Store.mk (fun i => if i = 1 then some .pending else none)
            (fun _ => ⟨10, 9, 0, 6, 0, 0⟩) [] true : Store).events)) := by
  have hpair : advance_phase (Store.mk (fun i => if i = 1 then some .pending else none)
      (fun _ => ⟨10, 9, 0, 6, 0, 0⟩) [] true) 1 false =
      (.advanced 1 .pending .inProgress [.briefCreatedValidated]
        (get_next_actions .inProgress) "Successfully advanced to in_progress",
       (advance_phase (Store.mk (fun i => if i = 1 then some .pending else none)
          (fun _ => ⟨10, 9, 0, 6, 0, 0⟩) [] true) 1 false).2) := by
    refine Prod.ext ?_ rfl
    norm_num [advance_phase, get_research_progress, update_brief_status, log_event,
      statusName]
    rfl
  exact ⟨hpair, c6_two_transactions _ _ 1 false .pending .inProgress _ _ _ hpair⟩


/-! ## Loop lemmas for C1–C3 -/

theorem appendAssistant_planning (st : LoopState) (b : String) :
    (appendAssistant st b).planningCalls = st.planningCalls := by
  unfold appendAssistant; split <;> rfl

theorem appendAssistant_batches (st : LoopState) (b : String) :
    (appendAssistant st b).batches = st.batches := by
  unfold appendAssistant; split <;> rfl

theorem appendAssistant_dispatched (st : LoopState) (b : String) :
    (appendAssistant st b).dispatched = st.dispatched := by
  unfold appendAssistant; split <;> rfl

/-- A dispatch over an always-reachable channel succeeds, leaving the
planning-call count and batch record unchanged and appending the calls, in
order, to the dispatch record. -/
theorem dispatchCalls_ok (channel : Channel)
    (hch : ∀ n a, ∃ r, channel n a = .ok r) :
    ∀ (calls : List FCall) (st : LoopState),
      ∃ msgs' chunks', dispatchCalls channel calls st =
        .ok ⟨msgs', st.planningCalls, st.batches, st.dispatched ++ calls, chunks'⟩ := by
  intro calls
  induction calls with
  | nil =>
      intro st
      exact ⟨st.msgs, st.finalChunks, by simp [dispatchCalls]⟩
  | cons c rest ih =>
      intro st
      obtain ⟨r, hr⟩ := hch c.name (argsOf c)
      obtain ⟨msgs', chunks', hrest⟩ := ih
        { st with
          msgs := st.msgs ++
            [.functionCallMsg c.name c.arguments c.callId,
             .functionCallOutputMsg c.callId (toolOutputText r)],
          dispatched := st.dispatched ++ [c],
          finalChunks := st.finalChunks ++ [.callingChunk c.name (argsOf c)] }
      refine ⟨msgs', chunks', ?_⟩
      simp only [dispatchCalls, hr]
      simpa using hrest

/-- Dispatch never touches the planning-call count, also on the aborted
path. -/
theorem dispatchCalls_planning (channel : Channel) :
    ∀ (calls : List FCall) (st st' : LoopState),
      dispatchCalls channel calls st = .ok st' ∨
        dispatchCalls channel calls st = .error st' →
      st'.planningCalls = st.planningCalls := by
  intro calls
  induction calls with
  | nil =>
      intro st st' h
      rcases h with h | h
      · simp only [dispatchCalls] at h
        injection h with h
        rw [← h]
      · simp [dispatchCalls] at h
  | cons c rest ih =>
      intro st st' h
      rcases hc : channel c.name (argsOf c) with te | r <;>
        simp only [dispatchCalls, hc] at h
      · rcases h with h | h
        · exact absurd h (by simp)
        · injection h with h
          rw [← h]
      · rcases h with h | h
        · exact (ih _ _ (Or.inl h)).trans rfl
        · exact (ih _ _ (Or.inr h)).trans rfl

/-- The loop makes at most `fuel` further planning calls, on every exit
path. -/
theorem runLoop_planning_le (planning : Nat → List Msg → ModelResponse)
    (channel : Channel) :
    ∀ (fuel : Nat) (st st' : LoopState),
      runLoop planning channel fuel st = .ok st' ∨
        runLoop planning channel fuel st = .error st' →
      st'.planningCalls ≤ st.planningCalls + fuel := by
  intro fuel
  induction fuel with
  | zero =>
      intro st st' h
      rcases h with h | h
      · simp only [runLoop] at h
        injection h with h
        rw [← h]
        omega
      · simp [runLoop] at h
  | succ f ih =>
      intro st st' h
      simp only [runLoop] at h
      split at h
      · rcases h with h | h
        · injection h with h
          rw [← h, appendAssistant_planning]
          show st.planningCalls + 1 ≤ st.planningCalls + (f + 1)
          omega
        · exact absurd h (by simp)
      · rcases hdc : dispatchCalls channel (collectCalls (planning st.planningCalls st.msgs))
            { appendAssistant { st with planningCalls := st.planningCalls + 1 }
                (collectText (planning st.planningCalls st.msgs)) with
              batches :=
                (appendAssistant { st with planningCalls := st.planningCalls + 1 }
                    (collectText (planning st.planningCalls st.msgs))).batches ++
                  [collectCalls (planning st.planningCalls st.msgs)] }
            with ste | sto <;> rw [hdc] at h
        · rcases h with h | h
          · exact absurd h (by simp)
          · injection h with h
            subst h
            rw [dispatchCalls_planning channel _ _ _ (Or.inr hdc),
              appendAssistant_planning]
            show st.planningCalls + 1 ≤ st.planningCalls + (f + 1)
            omega
        · have hle := ih sto st' h
          have h2 : sto.planningCalls = st.planningCalls + 1 := by
            rw [dispatchCalls_planning channel _ _ _ (Or.inl hdc),
              appendAssistant_planning]
          omega

/-- The loop under an index-scripted planning model and a reachable channel:
`k` rounds requesting tools then one requesting none make exactly `k + 1`
planning calls, record the `k` batches in order, and dispatch their
concatenation in order. -/
theorem runLoop_scripted (p : Nat → ModelResponse) (channel : Channel)
    (hch : ∀ n a, ∃ r, channel n a = .ok r) :
    ∀ (k fuel : Nat) (st : LoopState),
      k + 1 ≤ fuel →
      (∀ i, i < k → collectCalls (p (st.planningCalls + i)) ≠ []) →
      collectCalls (p (st.planningCalls + k)) = [] →
      ∃ st', runLoop (fun i _ => p i) channel fuel st = .ok st' ∧
        st'.planningCalls = st.planningCalls + (k + 1) ∧
        st'.batches = st.batches ++
          (List.range k).map (fun i => collectCalls (p (st.planningCalls + i))) ∧
        st'.dispatched = st.dispatched ++
          ((List.range k).map (fun i => collectCalls (p (st.planningCalls + i)))).flatten := by
  intro k
  induction k with
  | zero =>
      intro fuel st hfuel hcalls hstop
      obtain ⟨f, rfl⟩ : ∃ f, fuel = f + 1 := ⟨fuel - 1, by omega⟩
      simp only [Nat.add_zero] at hstop
      refine ⟨appendAssistant { st with planningCalls := st.planningCalls + 1 }
        (collectText (p st.planningCalls)), ?_, ?_, ?_, ?_⟩
      · simp only [runLoop, hstop]
        simp [List.isEmpty]
      · rw [appendAssistant_planning]
      · rw [appendAssistant_batches]; simp
      · rw [appendAssistant_dispatched]; simp
  | succ k ih =>
      intro fuel st hfuel hcalls hstop
      obtain ⟨f, rfl⟩ : ∃ f, fuel = f + 1 := ⟨fuel - 1, by omega⟩
      have hne : collectCalls (p st.planningCalls) ≠ [] := by
        have := hcalls 0 (by omega)
        simpa using this
      obtain ⟨msgs', chunks', hdc⟩ := dispatchCalls_ok channel hch
        (collectCalls (p st.planningCalls))
        { appendAssistant { st with planningCalls := st.planningCalls + 1 }
            (collectText (p st.planningCalls)) with
          batches :=
            (appendAssistant { st with planningCalls := st.planningCalls + 1 }
                (collectText (p st.planningCalls))).batches ++
              [collectCalls (p st.planningCalls)] }
      set stMid : LoopState :=
        ⟨msgs',
         (appendAssistant { st with planningCalls := st.planningCalls + 1 }
            (collectText (p st.planningCalls))).planningCalls,
         (appendAssistant { st with planningCalls := st.planningCalls + 1 }
            (collectText (p st.planningCalls))).batches ++
           [collectCalls (p st.planningCalls)],
         (appendAssistant { st with planningCalls := st.planningCalls + 1 }
            (collectText (p st.planningCalls))).dispatched ++
           collectCalls (p st.planningCalls),
         chunks'⟩ with hstMid
      have hmidpc : stMid.planningCalls = st.planningCalls + 1 := by
        rw [hstMid, appendAssistant_planning]
      obtain ⟨st', hrun, hpc, hbat, hdisp⟩ := ih f stMid (by omega)
        (by
          intro i hi
          rw [hmidpc]
          have := hcalls (i + 1) (by omega)
          have harith : st.planningCalls + (i + 1) = st.planningCalls + 1 + i := by omega
          rwa [harith] at this)
        (by
          rw [hmidpc]
          have harith : st.planningCalls + (k + 1) = st.planningCalls + 1 + k := by omega
          rwa [harith] at hstop)
      refine ⟨st', ?_, ?_, ?_, ?_⟩
      · simp only [runLoop]
        rw [if_neg (by simpa [List.isEmpty_iff] using hne)]
        rw [hdc]
        exact hrun
      · rw [hpc, hmidpc]; omega
      · rw [hbat, hstMid]
        simp only [appendAssistant_batches]
        rw [List.range_succ_eq_map]
        simp only [List.map_cons, List.map_map, Nat.add_zero, List.append_assoc,
          List.singleton_append]
        congr 1
        congr 1
        apply List.map_congr_left
        intro i _
        simp only [Function.comp_apply, appendAssistant_planning]
        congr 2
        omega
      · rw [hdisp, hstMid]
        simp only [appendAssistant_dispatched]
        rw [List.range_succ_eq_map]
        simp only [List.map_cons, List.map_map, Nat.add_zero, List.flatten,
          List.append_assoc]
        congr 1
        congr 1
        congr 1
        apply List.map_congr_left
        intro i _
        simp only [Function.comp_apply, appendAssistant_planning]
        congr 2
        omega

/-! ## C1 -/

/-- C1: a scripted planning model requesting at least one tool call in each
of its first `k` responses and none in its `(k+1)`-th, with `k + 1` within
the bound, makes exactly `k + 1` planning-tier calls; one batch of tool
calls is executed after each of the first `k`, dispatched sequentially in
the order received (the dispatch record is the in-order concatenation of
the recorded batches); then exactly one final-tier call is made and its
stripped text is returned as the answer. -/
theorem c1_scripted_rounds (script : List ModelResponse)
    (finalModel : List Msg → ModelResponse) (channel : Channel) (query : String)
    (k : Nat) (hk : k + 1 ≤ maxLoops)
    (hch : ∀ n a, ∃ r, channel n a = .ok r)
    (hcalls : ∀ i, i < k → collectCalls (script[i]?.getD ⟨[]⟩) ≠ [])
    (hstop : collectCalls (script[k]?.getD ⟨[]⟩) = []) :
    (process_query_run (scriptedPlanning script) finalModel channel query).planningCalls
        = k + 1 ∧
    (process_query_run (scriptedPlanning script) finalModel channel query).batches =
      (List.range k).map (fun i => collectCalls (script[i]?.getD ⟨[]⟩)) ∧
    (process_query_run (scriptedPlanning script) finalModel channel query).dispatched =
      ((process_query_run (scriptedPlanning script) finalModel channel query).batches).flatten ∧
    (process_query_run (scriptedPlanning script) finalModel channel query).finalTierCalls
        = 1 ∧
    (process_query_run (scriptedPlanning script) finalModel channel query).outcome =
      .answered (pyStripStr (collectText (finalModel
        (process_query_run (scriptedPlanning script) finalModel channel query).transcript))) := by
  obtain ⟨st', hrun, hpc, hbat, hdisp⟩ :=
    runLoop_scripted (fun i => (script[i]?).getD ⟨[]⟩) channel hch k maxLoops
      (initState query) hk
      (by intro i hi; simpa [initState] using hcalls i hi)
      (by simpa [initState] using hstop)
  have hrun' : runLoop (scriptedPlanning script) channel maxLoops (initState query) =
      .ok st' := hrun
  simp only [process_query_run, hrun']
  simp only [initState] at hpc hbat hdisp
  simp only [Nat.zero_add] at hpc hbat hdisp
  simp only [List.nil_append] at hbat hdisp
  refine ⟨hpc, hbat, ?_, ?_, ?_⟩
  · rw [hdisp, hbat]
  · trivial
  · trivial

/-! ## C2 -/

/-- C2: during tool dispatch, a tool-level failure — the channel returns an
ordinary result whose content is the stringified error (`isError = true`) —
is appended to the transcript as a `function_call_output` under the call's
`call_id` and dispatch continues with the next call; a transport-level
failure aborts the entire loop: the dispatch stops where it is, no
final-tier call is made, and the run's outcome is the aborted transport. -/
theorem c2_tool_vs_transport_failure :
    (∀ (channel : Channel) (st : LoopState) (c : FCall) (rest : List FCall)
        (e : String),
      channel c.name (argsOf c) = .ok ⟨[.textContent e], true⟩ →
      dispatchCalls channel (c :: rest) st =
        dispatchCalls channel rest
          { st with
            msgs := st.msgs ++
              [.functionCallMsg c.name c.arguments c.callId,
               .functionCallOutputMsg c.callId e],
            dispatched := st.dispatched ++ [c],
            finalChunks := st.finalChunks ++ [.callingChunk c.name (argsOf c)] }) ∧
    (∀ (channel : Channel) (st : LoopState) (c : FCall) (rest : List FCall),
      channel c.name (argsOf c) = .error .transportError →
      dispatchCalls channel (c :: rest) st = .error st) ∧
    (∀ (planning : Nat → List Msg → ModelResponse)
        (finalModel : List Msg → ModelResponse) (channel : Channel)
        (query : String) (st' : LoopState),
      runLoop planning channel maxLoops (initState query) = .error st' →
      (process_query_run planning finalModel channel query).finalTierCalls = 0 ∧
      (process_query_run planning finalModel channel query).outcome =
        .abortedTransport) := by
  refine ⟨?_, ?_, ?_⟩
  · intro channel st c rest e h
    have hjoin : toolOutputText ⟨[.textContent e], true⟩ = e := by
      simp [toolOutputText, String.join]
    simp only [dispatchCalls, h, hjoin]
  · intro channel st c rest h
    simp only [dispatchCalls, h]
  · intro planning finalModel channel query st' h
    simp only [process_query_run, h]
    exact ⟨by trivial, by trivial⟩

theorem c2_witness :
    (((fun _ _ => Except.ok ⟨[ToolContent.textContent "boom"], true⟩ : Channel)
        (FCall.mk "t" "" "c1").name (argsOf ⟨"t", "", "c1"⟩) =
        .ok ⟨[.textContent "boom"], true⟩) ∧
      dispatchCalls (fun _ _ => Except.ok ⟨[ToolContent.textContent "boom"], true⟩)
          [⟨"t", "", "c1"⟩] (initState "q") =
        dispatchCalls (fun _ _ => Except.ok ⟨[ToolContent.textContent "boom"], true⟩) []
          { initState "q" with
            msgs := (initState "q").msgs ++
              [.functionCallMsg "t" "" "c1", .functionCallOutputMsg "c1" "boom"],
            dispatched := (initState "q").dispatched ++ [⟨"t", "", "c1"⟩],
            finalChunks := (initState "q").finalChunks ++
              [.callingChunk "t" (argsOf ⟨"t", "", "c1"⟩)] }) ∧
    (((fun _ _ => Except.error .transportError : Channel)
        (FCall.mk "t" "" "c1").name (argsOf ⟨"t", "", "c1"⟩) =
        .error .transportError) ∧
      dispatchCalls (fun _ _ => Except.error .transportError) [⟨"t", "", "c1"⟩]
          (initState "q") = .error (initState "q")) ∧
    ((runLoop (fun _ _ => ⟨[.functionCall ⟨"t", "", "c1"⟩]⟩)
        (fun _ _ => Except.error .transportError) maxLoops (initState "q") =
        .error ⟨[.userMsg "q"], 1, [[⟨"t", "", "c1"⟩]], [], []⟩) ∧
      (process_query_run (fun _ _ => ⟨[.functionCall ⟨"t", "", "c1"⟩]⟩)
          (fun _ => ⟨[.message [.outputText "done"]]⟩)
          (fun _ _ => Except.error .transportError) "q").finalTierCalls = 0 ∧
      (process_query_run (fun _ _ => ⟨[.functionCall ⟨"t", "", "c1"⟩]⟩)
          (fun _ => ⟨[.message [.outputText "done"]]⟩)
          (fun _ _ => Except.error .transportError) "q").outcome =
        .abortedTransport) :=
  ⟨⟨rfl, c2_tool_vs_transport_failure.1 _ (initState "q") ⟨"t", "", "c1"⟩ [] "boom" rfl⟩,
   ⟨rfl, (c2_tool_vs_transport_failure.2.1) _ (initState "q") ⟨"t", "", "c1"⟩ [] rfl⟩,
   ⟨rfl, (c2_tool_vs_transport_failure.2.2) _ _ _ "q" _ rfl⟩⟩

/-! ## C3 -/

/-- C3 counterexample: a pathological model that always requests a tool call
is cut off after 25 planning iterations, and `process_query` then returns a
plain answer string identical to that of a run that stopped normally after
one planning call — no `BoundExceeded` outcome and no `bound_exceeded` flag
distinguish the two. -/
theorem c3_counterexample :
    process_query (fun _ _ => ⟨[.functionCall ⟨"t", "", "c1"⟩]⟩)
        (fun _ => ⟨[.message [.outputText "done"]]⟩)
        (fun _ _ => Except.ok ⟨[.textContent "out"], false⟩) "q" = .ok "done" ∧
    process_query (fun _ _ => ⟨[]⟩)
        (fun _ => ⟨[.message [.outputText "done"]]⟩)
        (fun _ _ => Except.ok ⟨[.textContent "out"], false⟩) "q" = .ok "done" ∧
    (process_query_run (fun _ _ => ⟨[.functionCall ⟨"t", "", "c1"⟩]⟩)
        (fun _ => ⟨[.message [.outputText "done"]]⟩)
        (fun _ _ => Except.ok ⟨[.textContent "out"], false⟩) "q").planningCalls = 25 ∧
    (process_query_run (fun _ _ => ⟨[]⟩)
        (fun _ => ⟨[.message [.outputText "done"]]⟩)
        (fun _ _ => Except.ok ⟨[.textContent "out"], false⟩) "q").planningCalls = 1 :=
  ⟨rfl, rfl, rfl, rfl⟩

/-- C3 amended: the loop counter is monotonic and bounded — every run makes
at most `max_loops = 25` planning-tier calls; when the loop stops (bound
reached or no more tool calls), the run proceeds with the transcript as-is
to the single final-tier call and returns its stripped text as an ordinary
answer.  No `BoundExceeded` outcome or `bound_exceeded` flag exists in the
code: a bound-exceeded run is indistinguishable from a normal completion. -/
theorem c3_bound_without_flag (planning : Nat → List Msg → ModelResponse)
    (finalModel : List Msg → ModelResponse) (channel : Channel) (query : String) :
    (process_query_run planning finalModel channel query).planningCalls ≤ maxLoops ∧
    ((process_query_run planning finalModel channel query).outcome ≠
        .abortedTransport →
      (process_query_run planning finalModel channel query).finalTierCalls = 1 ∧
      (process_query_run planning finalModel channel query).outcome =
        .answered (pyStripStr (collectText (finalModel
          (process_query_run planning finalModel channel query).transcript)))) := by
  rcases h : runLoop planning channel maxLoops (initState query) with ste | sto
  · have hle' : ste.planningCalls ≤ maxLoops := by
      simpa [initState] using runLoop_planning_le planning channel maxLoops _ _ (Or.inr h)
    constructor
    · simp only [process_query_run, h]
      exact hle'
    · intro hn
      exact absurd (by simp [process_query_run, h]) hn
  · have hle' : sto.planningCalls ≤ maxLoops := by
      simpa [initState] using runLoop_planning_le planning channel maxLoops _ _ (Or.inl h)
    constructor
    · simp only [process_query_run, h]
      exact hle'
    · intro hn
      simp only [process_query_run, h]
      exact ⟨by trivial, by trivial⟩

theorem c3_bound_without_flag_witness :
    ((process_query_run (fun _ _ => ⟨[]⟩)
        (fun _ => ⟨[.message [.outputText "done"]]⟩)
        (fun _ _ => Except.ok ⟨[.textContent "out"], false⟩) "q").outcome ≠
      .abortedTransport) ∧
    (process_query_run (fun _ _ => ⟨[]⟩)
        (fun _ => ⟨[.message [.outputText "done"]]⟩)
        (fun _ _ => Except.ok ⟨[.textContent "out"], false⟩) "q").planningCalls ≤
      maxLoops ∧
    ((process_query_run (fun _ _ => ⟨[]⟩)
        (fun _ => ⟨[.message [.outputText "done"]]⟩)
        (fun _ _ => Except.ok ⟨[.textContent "out"], false⟩) "q").finalTierCalls = 1 ∧
      (process_query_run (fun _ _ => ⟨[]⟩)
        (fun _ => ⟨[.message [.outputText "done"]]⟩)
        (fun _ _ => Except.ok ⟨[.textContent "out"], false⟩) "q").outcome =
        .answered (pyStripStr (collectText ((fun _ => ⟨[.message [.outputText "done"]]⟩)
          (process_query_run (fun _ _ => ⟨[]⟩)
            (fun _ => ⟨[.message [.outputText "done"]]⟩)
            (fun _ _ => Except.ok ⟨[.textContent "out"], false⟩) "q").transcript)))) :=
  ⟨by decide,
    (c3_bound_without_flag _ _ _ "q").1,
    (c3_bound_without_flag _ _ _ "q").2 (by decide)⟩

theorem c1_scripted_rounds_witness :
    (1 + 1 ≤ maxLoops ∧
      (∀ n a, ∃ r,
        (fun _ _ => Except.ok ⟨[ToolContent.textContent "out"], false⟩ : Channel) n a =
          .ok r) ∧
      (∀ i, i < 1 → collectCalls
        (([⟨[.functionCall ⟨"t", "", "c1"⟩]⟩,
           ⟨[]⟩] : List ModelResponse)[i]?.getD ⟨[]⟩) ≠ []) ∧
      collectCalls (([⟨[.functionCall ⟨"t", "", "c1"⟩]⟩,
        ⟨[]⟩] : List ModelResponse)[1]?.getD ⟨[]⟩) = []) ∧
    ((process_query_run
        (scriptedPlanning [⟨[.functionCall ⟨"t", "", "c1"⟩]⟩, ⟨[]⟩])
        (fun _ => ⟨[.message [.outputText "done"]]⟩)
        (fun _ _ => Except.ok ⟨[.textContent "out"], false⟩) "q").planningCalls = 1 + 1 ∧
      (process_query_run
        (scriptedPlanning [⟨[.functionCall ⟨"t", "", "c1"⟩]⟩, ⟨[]⟩])
        (fun _ => ⟨[.message [.outputText "done"]]⟩)
        (fun _ _ => Except.ok ⟨[.textContent "out"], false⟩) "q").batches =
        (List.range 1).map (fun i => collectCalls
          (([⟨[.functionCall ⟨"t", "", "c1"⟩]⟩,
             ⟨[]⟩] : List ModelResponse)[i]?.getD ⟨[]⟩)) ∧
      (process_query_run
        (scriptedPlanning [⟨[.functionCall ⟨"t", "", "c1"⟩]⟩, ⟨[]⟩])
        (fun _ => ⟨[.message [.outputText "done"]]⟩)
        (fun _ _ => Except.ok ⟨[.textContent "out"], false⟩) "q").dispatched =
        ((process_query_run
          (scriptedPlanning [⟨[.functionCall ⟨"t", "", "c1"⟩]⟩, ⟨[]⟩])
          (fun _ => ⟨[.message [.outputText "done"]]⟩)
          (fun _ _ => Except.ok ⟨[.textContent "out"], false⟩) "q").batches).flatten ∧
      (process_query_run
        (scriptedPlanning [⟨[.functionCall ⟨"t", "", "c1"⟩]⟩, ⟨[]⟩])
        (fun _ => ⟨[.message [.outputText "done"]]⟩)
        (fun _ _ => Except.ok ⟨[.textContent "out"], false⟩) "q").finalTierCalls = 1 ∧
      (process_query_run
        (scriptedPlanning [⟨[.functionCall ⟨"t", "", "c1"⟩]⟩, ⟨[]⟩])
        (fun _ => ⟨[.message [.outputText "done"]]⟩)
        (fun _ _ => Except.ok ⟨[.textContent "out"], false⟩) "q").outcome =
        .answered (pyStripStr (collectText ((fun _ => ⟨[.message [.outputText "done"]]⟩)
          (process_query_run
            (scriptedPlanning [⟨[.functionCall ⟨"t", "", "c1"⟩]⟩, ⟨[]⟩])
            (fun _ => ⟨[.message [.outputText "done"]]⟩)
            (fun _ _ => Except.ok ⟨[.textContent "out"], false⟩) "q").transcript)))) :=
  ⟨⟨by decide, fun n a => ⟨⟨[ToolContent.textContent "out"], false⟩, rfl⟩,
      by decide, rfl⟩,
    c1_scripted_rounds [⟨[.functionCall ⟨"t", "", "c1"⟩]⟩, ⟨[]⟩]
      (fun _ => ⟨[.message [.outputText "done"]]⟩)
      (fun _ _ => Except.ok ⟨[.textContent "out"], false⟩) "q" 1 (by decide)
      (fun n a => ⟨⟨[ToolContent.textContent "out"], false⟩, rfl⟩)
      (by decide) rfl⟩


/-! ## Round-trip: digits and numbers (C8) -/

theorem digitC_spec (d : Nat) (h : d < 10) :
    isDigitC (Char.ofNat (48 + d)) = true ∧ (Char.ofNat (48 + d)).toNat - '0'.toNat = d := by
  interval_cases d <;> exact ⟨by decide, by decide⟩

theorem natChars_ne_nil (n : Nat) : natChars n ≠ [] := by
  unfold natChars
  split
  · rename_i h
    simp [Nat.digits_ne_nil_iff_ne_zero.mpr (by omega : n ≠ 0)]
  · simp

theorem natChars_digits (n : Nat) : ∀ c ∈ natChars n, isDigitC c = true := by
  intro c hc
  unfold natChars at hc
  split at hc
  · simp only [List.mem_map, List.mem_reverse] at hc
    obtain ⟨d, hd, rfl⟩ := hc
    exact (digitC_spec d (Nat.digits_lt_base (by norm_num) hd)).1
  · simp at hc
    subst hc
    decide

theorem foldl_digits_rev (l : List Nat) (h : ∀ d ∈ l, d < 10) :
    ((l.reverse.map (fun d => Char.ofNat (48 + d))).foldl
      (fun acc c => acc * 10 + (c.toNat - '0'.toNat)) 0) = Nat.ofDigits 10 l := by
  induction l with
  | nil => simp [Nat.ofDigits_nil]
  | cons d l ih =>
      have hd : d < 10 := h d (by simp)
      have hl : ∀ x ∈ l, x < 10 := fun x hx => h x (by simp [hx])
      simp only [List.reverse_cons, List.map_append, List.map_cons, List.map_nil,
        List.foldl_append, List.foldl_cons, List.foldl_nil, ih hl,
        Nat.ofDigits_cons, (digitC_spec d hd).2]
      ring

theorem digitsToNat_natChars (n : Nat) : digitsToNat (natChars n) = n := by
  unfold natChars digitsToNat
  split
  · rw [foldl_digits_rev _ (fun d hd => Nat.digits_lt_base (by norm_num) hd),
      Nat.ofDigits_digits]
  · rename_i h
    have hz : n = 0 := by omega
    subst hz
    decide

theorem takeDigits_stop (rest : List Char) (h : numStop rest = true) :
    takeDigits rest = ([], rest) := by
  cases rest with
  | nil => rfl
  | cons c t =>
      simp only [numStop, Bool.not_eq_true'] at h
      simp [takeDigits, h]

theorem takeDigits_run (ds : List Char) (hds : ∀ c ∈ ds, isDigitC c = true)
    (rest : List Char) (hrest : numStop rest = true) :
    takeDigits (ds ++ rest) = (ds, rest) := by
  induction ds with
  | nil => simpa using takeDigits_stop rest hrest
  | cons c t ih =>
      have hc : isDigitC c = true := hds c (by simp)
      have ht := ih (fun x hx => hds x (by simp [hx]))
      simp [takeDigits, hc, ht]

theorem digit_head_facts {c : Char} (h : isDigitC c = true) :
    pyWs c = false ∧ jsonWs c = false ∧ c ≠ '-' ∧ c ≠ '"' ∧ c ≠ lbrace ∧ c ≠ '[' ∧
      c ≠ 'n' ∧ c ≠ 't' ∧ c ≠ 'f' ∧ c ≠ ']' ∧ c ≠ rbrace := by
  have hn : 48 ≤ c.toNat ∧ c.toNat ≤ 57 := by
    simp only [isDigitC, Bool.and_eq_true, decide_eq_true_eq] at h
    exact ⟨h.1, h.2⟩
  refine ⟨?_, ?_, ?_, ?_, ?_, ?_, ?_, ?_, ?_, ?_, ?_⟩
  · by_contra hc
    simp only [Bool.not_eq_false, pyWs, Bool.or_eq_true, decide_eq_true_eq] at hc
    rcases hc with ((((rfl | rfl) | rfl) | rfl) | rfl) | rfl <;>
      exact absurd hn (by decide)
  · by_contra hc
    simp only [Bool.not_eq_false, jsonWs, Bool.or_eq_true, decide_eq_true_eq] at hc
    rcases hc with ((rfl | rfl) | rfl) | rfl <;> exact absurd hn (by decide)
  all_goals (intro heq; subst heq; exact absurd hn (by decide))

theorem parseIntNum_intChars (n : Int) (rest : List Char) (h : numStop rest = true) :
    parseIntNum (intChars n ++ rest) = some (.num n, rest) := by
  by_cases hneg : n < 0
  · obtain ⟨c, t, hct⟩ : ∃ c t, natChars n.natAbs = c :: t := by
      rcases hx : natChars n.natAbs with _ | ⟨c, t⟩
      · exact absurd hx (natChars_ne_nil _)
      · exact ⟨c, t, rfl⟩
    have harg : intChars n ++ rest = '-' :: (natChars n.natAbs ++ rest) := by
      simp [intChars, hneg]
    rw [harg]
    simp only [parseIntNum, if_pos rfl,
      takeDigits_run (natChars n.natAbs) (natChars_digits n.natAbs) rest h]
    rw [hct]
    have hval : (-(digitsToNat (c :: t)) : Int) = n := by
      rw [← hct, digitsToNat_natChars]
      omega
    show some (Json.num (-(digitsToNat (c :: t)) : Int), rest) =
      some (Json.num n, rest)
    rw [hval]
  · obtain ⟨c, t, hct⟩ : ∃ c t, natChars n.natAbs = c :: t := by
      rcases hx : natChars n.natAbs with _ | ⟨c, t⟩
      · exact absurd hx (natChars_ne_nil _)
      · exact ⟨c, t, rfl⟩
    have hcd : isDigitC c = true := natChars_digits n.natAbs c (by simp [hct])
    have hfacts := digit_head_facts hcd
    have harg : intChars n ++ rest = c :: (t ++ rest) := by
      simp [intChars, hneg, hct]
    rw [harg]
    simp only [parseIntNum, if_neg hfacts.2.2.1]
    have htd : takeDigits (c :: (t ++ rest)) = (c :: t, rest) := by
      have := takeDigits_run (natChars n.natAbs) (natChars_digits n.natAbs) rest h
      rwa [hct, List.cons_append] at this
    rw [htd]
    have hval : ((digitsToNat (c :: t)) : Int) = n := by
      rw [← hct, digitsToNat_natChars]
      omega
    show some (Json.num ((digitsToNat (c :: t)) : Int), rest) = some (Json.num n, rest)
    rw [hval]

/-! ## Round-trip: strings, dict building, boundary characters (C8) -/

theorem parseStrBody_escAll (l : List Char) (hwf : l.all wfChar = true) :
    ∀ (acc rest : List Char),
      parseStrBody acc (escAll l ++ '"' :: rest) =
        some (String.mk (acc.reverse ++ l), rest) := by
  induction l with
  | nil =>
      intro acc rest
      rw [show escAll [] ++ '"' :: rest = '"' :: rest from rfl, parseStrBody.eq_def]
      simp
  | cons c l ih =>
      intro acc rest
      simp only [List.all_cons, Bool.and_eq_true] at hwf
      have hrec := ih hwf.2
      by_cases hq : c = '"'
      · subst hq
        have harg : escAll ('"' :: l) ++ '"' :: rest =
            '\\' :: '"' :: (escAll l ++ '"' :: rest) := by
          simp [escAll, escJ]
        rw [harg, parseStrBody.eq_def]
        simp only [reduceIte, unescapeC]
        rw [hrec ('"' :: acc) rest]
        simp
      · by_cases hb : c = '\\'
        · subst hb
          have harg : escAll ('\\' :: l) ++ '"' :: rest =
              '\\' :: '\\' :: (escAll l ++ '"' :: rest) := by
            simp [escAll, escJ]
          rw [harg, parseStrBody.eq_def]
          have hne1 : ('\\' : Char) ≠ '"' := by decide
          have hne2 : ('\\' : Char) ≠ 'u' := by decide
          simp only [unescapeC, if_neg hne1, if_neg hne2, reduceIte]
          rw [hrec ('\\' :: acc) rest]
          simp
        · have harg : escAll (c :: l) ++ '"' :: rest =
              c :: (escAll l ++ '"' :: rest) := by
            simp [escAll, escJ, hq, hb]
          rw [harg]
          have hctl : ¬ c.toNat < 32 := by
            simp only [wfChar, Bool.and_eq_true, decide_eq_true_eq] at hwf
            omega
          rw [parseStrBody.eq_def]
          simp only [hq, hb, hctl, if_false, ite_false]
          rw [hrec (c :: acc) rest]
          simp

theorem insertKV_fresh (acc : List (String × Json)) (k : String) (v : Json)
    (h : ∀ m ∈ acc, m.1 ≠ k) : insertKV acc k v = acc ++ [(k, v)] := by
  induction acc with
  | nil => rfl
  | cons m rest ih =>
      obtain ⟨k', v'⟩ := m
      have hm : k' ≠ k := h (k', v') (by simp)
      simp only [insertKV, if_neg hm, List.cons_append, List.cons.injEq, true_and]
      exact ih (fun x hx => h x (by simp [hx]))

theorem foldl_insertKV (ms : List (String × Json)) :
    ∀ acc, nodupKeys ms = true → (∀ m ∈ ms, ∀ p ∈ acc, p.1 ≠ m.1) →
      ms.foldl (fun acc m => insertKV acc m.1 m.2) acc = acc ++ ms := by
  induction ms with
  | nil =>
      intro acc _ _
      simp
  | cons m rest ih =>
      intro acc hnd hdisj
      obtain ⟨k, v⟩ := m
      simp only [nodupKeys, Bool.and_eq_true, List.all_eq_true,
        Bool.not_eq_true', decide_eq_false_iff_not] at hnd
      simp only [List.foldl_cons]
      rw [insertKV_fresh acc k v (fun p hp => hdisj (k, v) (by simp) p hp)]
      rw [ih (acc ++ [(k, v)]) hnd.2 ?_]
      · simp
      · intro x hx p hp
        rcases List.mem_append.mp hp with hp | hp
        · exact hdisj x (by simp [hx]) p hp
        · simp only [List.mem_singleton] at hp
          subst hp
          exact fun hkx => (hnd.1 x hx) hkx.symm

/-- Parsed members with duplicate-free keys build the same list as a Python
dict. -/
theorem pyDict_nodup (ms : List (String × Json)) (h : nodupKeys ms = true) :
    pyDict ms = ms := by
  have := foldl_insertKV ms [] h (by simp)
  simpa [pyDict] using this

/-- Every rendered value starts with a character that is not whitespace and
closes no array or object. -/
theorem dump_head (v : Json) :
    ∃ c t, dumpJson v = c :: t ∧ pyWs c = false ∧ jsonWs c = false ∧
      c ≠ ']' ∧ c ≠ rbrace := by
  cases v with
  | null => exact ⟨'n', _, rfl, by decide, by decide, by decide, by decide⟩
  | bool b =>
      cases b with
      | true => exact ⟨'t', _, rfl, by decide, by decide, by decide, by decide⟩
      | false => exact ⟨'f', _, rfl, by decide, by decide, by decide, by decide⟩
  | str s => exact ⟨'"', _, rfl, by decide, by decide, by decide, by decide⟩
  | arr es =>
      cases es with
      | nil => exact ⟨'[', _, rfl, by decide, by decide, by decide, by decide⟩
      | cons x xs => exact ⟨'[', _, rfl, by decide, by decide, by decide, by decide⟩
  | obj ms =>
      cases ms with
      | nil => exact ⟨lbrace, _, rfl, by decide, by decide, by decide, by decide⟩
      | cons m ms => exact ⟨lbrace, _, rfl, by decide, by decide, by decide, by decide⟩
  | num n =>
      by_cases hneg : n < 0
      · refine ⟨'-', natChars n.natAbs, ?_, by decide, by decide, by decide, by decide⟩
        simp [dumpJson, intChars, hneg]
      · obtain ⟨c, t, hct⟩ : ∃ c t, natChars n.natAbs = c :: t := by
          rcases hx : natChars n.natAbs with _ | ⟨c, t⟩
          · exact absurd hx (natChars_ne_nil _)
          · exact ⟨c, t, rfl⟩
        have hf := digit_head_facts (natChars_digits n.natAbs c (by simp [hct]))
        refine ⟨c, t, ?_, hf.1, hf.2.1, hf.2.2.2.2.2.2.2.2.2.1,
          hf.2.2.2.2.2.2.2.2.2.2⟩
        simp [dumpJson, intChars, hneg, hct]

/-- Every rendered value ends with a non-whitespace character. -/
theorem dump_last (v : Json) :
    ∃ c, (dumpJson v).getLast? = some c ∧ pyWs c = false := by
  cases v with
  | null => exact ⟨'l', by decide, by decide⟩
  | bool b => cases b with
      | true => exact ⟨'e', by decide, by decide⟩
      | false => exact ⟨'e', by decide, by decide⟩
  | str s =>
      refine ⟨'"', ?_, by decide⟩
      show ('"' :: (escAll s.data ++ ['"'])).getLast? = some '"'
      rw [show '"' :: (escAll s.data ++ ['"']) = ('"' :: escAll s.data) ++ ['"'] from rfl]
      exact List.getLast?_concat _
  | arr es =>
      cases es with
      | nil => exact ⟨']', by decide, by decide⟩
      | cons x xs =>
          refine ⟨']', ?_, by decide⟩
          show ('[' :: (dumpJson x ++ (dumpArrTail xs ++ [']']))).getLast? = some ']'
          rw [show '[' :: (dumpJson x ++ (dumpArrTail xs ++ [']'])) =
            ('[' :: (dumpJson x ++ dumpArrTail xs)) ++ [']'] by simp]
          exact List.getLast?_concat _
  | obj ms =>
      cases ms with
      | nil => exact ⟨rbrace, by decide, by decide⟩
      | cons m ms =>
          refine ⟨rbrace, ?_, by decide⟩
          show (lbrace :: (dumpMember m ++ (dumpObjTail ms ++ [rbrace]))).getLast? =
            some rbrace
          rw [show lbrace :: (dumpMember m ++ (dumpObjTail ms ++ [rbrace])) =
            (lbrace :: (dumpMember m ++ dumpObjTail ms)) ++ [rbrace] by simp]
          exact List.getLast?_concat _
  | num n =>
      have hnn := natChars_ne_nil n.natAbs
      have hlast : ∃ c, (natChars n.natAbs).getLast? = some c ∧ pyWs c = false := by
        refine ⟨(natChars n.natAbs).getLast hnn, List.getLast?_eq_getLast _ hnn, ?_⟩
        exact (digit_head_facts (natChars_digits n.natAbs _ (List.getLast_mem hnn))).1
      obtain ⟨c, hc, hcw⟩ := hlast
      by_cases hneg : n < 0
      · refine ⟨c, ?_, hcw⟩
        show (intChars n).getLast? = some c
        rw [show intChars n = '-' :: natChars n.natAbs by simp [intChars, hneg]]
        rcases hx : natChars n.natAbs with _ | ⟨d, t⟩
        · exact absurd hx hnn
        · rw [hx] at hc
          rw [List.getLast?_cons_cons]
          exact hc
      · refine ⟨c, ?_, hcw⟩
        show (intChars n).getLast? = some c
        rw [show intChars n = natChars n.natAbs by simp [intChars, hneg]]
        exact hc

/-- `str.strip()` leaves rendered output unchanged. -/
theorem pyStrip_dump (v : Json) : pyStrip (dumpJson v) = dumpJson v := by
  obtain ⟨c, t, hct, hpw, -, -, -⟩ := dump_head v
  obtain ⟨e, he, hew⟩ := dump_last v
  have h1 : (dumpJson v).dropWhile pyWs = dumpJson v := by
    rw [hct, List.dropWhile_cons, if_neg (by simp [hpw])]
  have h2 : (dumpJson v).reverse.dropWhile pyWs = (dumpJson v).reverse := by
    rcases hx : (dumpJson v).reverse with _ | ⟨r0, rr⟩
    · rfl
    · have hh : (dumpJson v).reverse.head? = some r0 := by rw [hx]; rfl
      rw [List.head?_reverse] at hh
      rw [he] at hh
      injection hh with hh
      subst hh
      rw [List.dropWhile_cons, if_neg (by simp [hew])]
  unfold pyStrip
  rw [h1, h2, List.reverse_reverse]

/-! ## Round-trip: parser step lemmas (C8) -/

theorem skipWs_cons_false {c : Char} (h : jsonWs c = false) (l : List Char) :
    skipWs (c :: l) = c :: l := by
  simp [skipWs, h]

/-- One-step unfolding of `parseVal` at successor fuel (definitional). -/
theorem parseVal_succ_eq (f : Nat) (cs : List Char) :
    parseVal (f + 1) cs =
      (match skipWs cs with
      | [] => none
      | c :: r =>
          if c = '"' then
            match parseStrBody [] r with
            | some (s, r') => some (.str s, r')
            | none => none
          else if c = lbrace then
            match skipWs r with
            | [] => none
            | c' :: r' =>
                if c' = rbrace then some (.obj [], r')
                else
                  match parseMembers f (c' :: r') with
                  | some (ms, r'') => some (.obj (pyDict ms), r'')
                  | none => none
          else if c = '[' then
            match skipWs r with
            | [] => none
            | c' :: r' =>
                if c' = ']' then some (.arr [], r')
                else
                  match parseElems f (c' :: r') with
                  | some (es, r'') => some (.arr es, r'')
                  | none => none
          else if c = 'n' then
            match r with
            | 'u' :: 'l' :: 'l' :: r' => some (.null, r')
            | _ => none
          else if c = 't' then
            match r with
            | 'r' :: 'u' :: 'e' :: r' => some (.bool true, r')
            | _ => none
          else if c = 'f' then
            match r with
            | 'a' :: 'l' :: 's' :: 'e' :: r' => some (.bool false, r')
            | _ => none
          else if c = '-' || isDigitC c then parseIntNum (c :: r)
          else none) := rfl

/-- One-step unfolding of `parseElems` at successor fuel (definitional). -/
theorem parseElems_succ_eq (f : Nat) (cs : List Char) :
    parseElems (f + 1) cs =
      (match parseVal f cs with
      | none => none
      | some (v, r) =>
          match skipWs r with
          | ',' :: r' =>
              match parseElems f r' with
              | some (vs, r'') => some (v :: vs, r'')
              | none => none
          | c :: r' => if c = ']' then some ([v], r') else none
          | [] => none) := rfl

/-- One-step unfolding of `parseMembers` at successor fuel (definitional). -/
theorem parseMembers_succ_eq (f : Nat) (cs : List Char) :
    parseMembers (f + 1) cs =
      (match skipWs cs with
      | '"' :: r =>
          match parseStrBody [] r with
          | none => none
          | some (k, r1) =>
              match skipWs r1 with
              | ':' :: r2 =>
                  match parseVal f r2 with
                  | none => none
                  | some (v, r3) =>
                      match skipWs r3 with
                      | ',' :: r4 =>
                          match parseMembers f r4 with
                          | some (ms, r5) => some ((k, v) :: ms, r5)
                          | none => none
                      | c :: r4 => if c = rbrace then some ([(k, v)], r4) else none
                      | [] => none
              | _ => none
      | _ => none) := rfl

theorem parseVal_space (fuel : Nat) (cs : List Char) :
    parseVal fuel (' ' :: cs) = parseVal fuel cs := by
  cases fuel with
  | zero => rfl
  | succ f =>
      rw [parseVal_succ_eq, parseVal_succ_eq,
        show skipWs (' ' :: cs) = skipWs cs from by simp [skipWs, jsonWs]]

theorem parseElems_space (fuel : Nat) (cs : List Char) :
    parseElems fuel (' ' :: cs) = parseElems fuel cs := by
  cases fuel with
  | zero => rfl
  | succ f =>
      rw [parseElems_succ_eq, parseElems_succ_eq, parseVal_space]

theorem parseMembers_space (fuel : Nat) (cs : List Char) :
    parseMembers fuel (' ' :: cs) = parseMembers fuel cs := by
  cases fuel with
  | zero => rfl
  | succ f =>
      rw [parseMembers_succ_eq, parseMembers_succ_eq,
        show skipWs (' ' :: cs) = skipWs cs from by simp [skipWs, jsonWs]]

theorem parseVal_null_dump (f : Nat) (rest : List Char) :
    parseVal (f + 1) (dumpJson .null ++ rest) = some (.null, rest) := by
  rw [show dumpJson .null ++ rest = 'n' :: 'u' :: 'l' :: 'l' :: rest from rfl,
    parseVal_succ_eq]
  simp [skipWs, jsonWs, lbrace]

theorem parseVal_true_dump (f : Nat) (rest : List Char) :
    parseVal (f + 1) (dumpJson (.bool true) ++ rest) = some (.bool true, rest) := by
  rw [show dumpJson (.bool true) ++ rest = 't' :: 'r' :: 'u' :: 'e' :: rest from rfl,
    parseVal_succ_eq]
  simp [skipWs, jsonWs, lbrace]

theorem parseVal_false_dump (f : Nat) (rest : List Char) :
    parseVal (f + 1) (dumpJson (.bool false) ++ rest) = some (.bool false, rest) := by
  rw [show dumpJson (.bool false) ++ rest = 'f' :: 'a' :: 'l' :: 's' :: 'e' :: rest from
    rfl, parseVal_succ_eq]
  simp [skipWs, jsonWs, lbrace]

theorem parseVal_str_dump (f : Nat) (s : String) (rest : List Char)
    (hwf : s.data.all wfChar = true) :
    parseVal (f + 1) (dumpJson (.str s) ++ rest) = some (.str s, rest) := by
  rw [show dumpJson (.str s) ++ rest = '"' :: (escAll s.data ++ '"' :: rest) from by
      show '"' :: (escAll s.data ++ ['"']) ++ rest = _
      simp,
    parseVal_succ_eq, skipWs_cons_false (by decide)]
  simp only [reduceIte, parseStrBody_escAll s.data hwf [] rest]
  simp

theorem parseVal_num_dump (f : Nat) (n : Int) (rest : List Char)
    (h : numStop rest = true) :
    parseVal (f + 1) (dumpJson (.num n) ++ rest) = some (.num n, rest) := by
  have hsub : dumpJson (.num n) ++ rest = intChars n ++ rest := rfl
  by_cases hneg : n < 0
  · have harg : intChars n ++ rest = '-' :: (natChars n.natAbs ++ rest) := by
      simp [intChars, hneg]
    have hpin := parseIntNum_intChars n rest h
    rw [harg] at hpin
    rw [hsub, harg, parseVal_succ_eq, skipWs_cons_false (by decide)]
    simp only [if_neg (show ¬ ('-' : Char) = '"' from by decide),
      if_neg (show ¬ ('-' : Char) = lbrace from by decide),
      if_neg (show ¬ ('-' : Char) = '[' from by decide),
      if_neg (show ¬ ('-' : Char) = 'n' from by decide),
      if_neg (show ¬ ('-' : Char) = 't' from by decide),
      if_neg (show ¬ ('-' : Char) = 'f' from by decide),
      if_pos (show (('-' : Char) = '-' || isDigitC '-') = true from by decide)]
    exact hpin
  · obtain ⟨c, t, hct⟩ : ∃ c t, natChars n.natAbs = c :: t := by
      rcases hx : natChars n.natAbs with _ | ⟨c, t⟩
      · exact absurd hx (natChars_ne_nil _)
      · exact ⟨c, t, rfl⟩
    have hcd : isDigitC c = true := natChars_digits n.natAbs c (by simp [hct])
    have hf2 := digit_head_facts hcd
    have harg : intChars n ++ rest = c :: (t ++ rest) := by
      simp [intChars, hneg, hct]
    have hpin := parseIntNum_intChars n rest h
    rw [harg] at hpin
    rw [hsub, harg, parseVal_succ_eq, skipWs_cons_false hf2.2.1]
    simp only [if_neg hf2.2.2.2.1, if_neg hf2.2.2.2.2.1, if_neg hf2.2.2.2.2.2.1,
      if_neg hf2.2.2.2.2.2.2.1, if_neg hf2.2.2.2.2.2.2.2.1,
      if_neg hf2.2.2.2.2.2.2.2.2.1]
    rw [if_pos (by simp [hcd])]
    exact hpin

theorem parseVal_arr_nil (f : Nat) (rest : List Char) :
    parseVal (f + 1) (dumpJson (.arr []) ++ rest) = some (.arr [], rest) := by
  rw [show dumpJson (.arr []) ++ rest = '[' :: ']' :: rest from rfl, parseVal_succ_eq]
  simp [skipWs, jsonWs, lbrace]

theorem parseVal_obj_nil (f : Nat) (rest : List Char) :
    parseVal (f + 1) (dumpJson (.obj []) ++ rest) = some (.obj [], rest) := by
  rw [show dumpJson (.obj []) ++ rest = lbrace :: rbrace :: rest from rfl,
    parseVal_succ_eq]
  simp [skipWs, jsonWs, lbrace, rbrace]

theorem parseVal_arr_step (f : Nat) (x : Json) (xs : List Json) (rest : List Char) :
    parseVal (f + 1) (dumpJson (.arr (x :: xs)) ++ rest) =
      (match parseElems f (dumpJson x ++ (dumpArrTail xs ++ ']' :: rest)) with
       | some (es, r) => some (.arr es, r)
       | none => none) := by
  obtain ⟨c, t, hct, -, hjw, hne, -⟩ := dump_head x
  have harg : dumpJson (.arr (x :: xs)) ++ rest =
      '[' :: (dumpJson x ++ (dumpArrTail xs ++ ']' :: rest)) := by
    show '[' :: (dumpJson x ++ (dumpArrTail xs ++ [']'])) ++ rest = _
    simp
  have hcons : dumpJson x ++ (dumpArrTail xs ++ ']' :: rest) =
      c :: (t ++ (dumpArrTail xs ++ ']' :: rest)) := by
    rw [hct]; simp
  rw [harg, parseVal_succ_eq, skipWs_cons_false (by decide)]
  simp only [if_neg (show ¬ ('[' : Char) = '"' from by decide),
    if_neg (show ¬ ('[' : Char) = lbrace from by decide),
    if_pos (show ('[' : Char) = '[' from rfl)]
  rw [hcons, skipWs_cons_false hjw]
  simp only [if_neg hne]
  rw [← hcons]
  simp only [if_true]

theorem parseVal_obj_step (f : Nat) (m : String × Json) (ms : List (String × Json))
    (rest : List Char) :
    parseVal (f + 1) (dumpJson (.obj (m :: ms)) ++ rest) =
      (match parseMembers f (dumpMember m ++ (dumpObjTail ms ++ rbrace :: rest)) with
       | some (mss, r) => some (.obj (pyDict mss), r)
       | none => none) := by
  obtain ⟨k, v⟩ := m
  have harg : dumpJson (.obj ((k, v) :: ms)) ++ rest =
      lbrace :: (dumpMember (k, v) ++ (dumpObjTail ms ++ rbrace :: rest)) := by
    show lbrace :: (dumpMember (k, v) ++ (dumpObjTail ms ++ [rbrace])) ++ rest = _
    simp
  have hcons : dumpMember (k, v) ++ (dumpObjTail ms ++ rbrace :: rest) =
      '"' :: ((escAll k.data ++ ['"']) ++ (':' :: ' ' :: dumpJson v ++
        (dumpObjTail ms ++ rbrace :: rest))) := by
    show (dumpStr k ++ ':' :: ' ' :: dumpJson v) ++ (dumpObjTail ms ++ rbrace :: rest) = _
    show ('"' :: (escAll k.data ++ ['"']) ++ ':' :: ' ' :: dumpJson v) ++
      (dumpObjTail ms ++ rbrace :: rest) = _
    simp
  rw [harg, parseVal_succ_eq, skipWs_cons_false (by decide)]
  simp only [if_neg (show ¬ lbrace = '"' from by decide),
    if_pos (show lbrace = lbrace from rfl)]
  rw [hcons, skipWs_cons_false (by decide)]
  simp only [if_neg (show ¬ ('"' : Char) = rbrace from by decide)]
  rw [← hcons]
  simp only [if_true]

/-! ## Round-trip: the main induction (C8) -/

mutual
/-- Parsing a rendered well-formed value recovers it exactly, with any
non-digit-headed remainder untouched, given fuel beyond the rendered
length. -/
theorem rt_val : ∀ (v : Json) (fuel : Nat) (rest : List Char),
    wfJson v = true → (dumpJson v).length < fuel → numStop rest = true →
    parseVal fuel (dumpJson v ++ rest) = some (v, rest)
  | .null, fuel, rest, _, hf, _ => by
      cases fuel with
      | zero => exact absurd hf (by omega)
      | succ f => exact parseVal_null_dump f rest
  | .bool true, fuel, rest, _, hf, _ => by
      cases fuel with
      | zero => exact absurd hf (by omega)
      | succ f => exact parseVal_true_dump f rest
  | .bool false, fuel, rest, _, hf, _ => by
      cases fuel with
      | zero => exact absurd hf (by omega)
      | succ f => exact parseVal_false_dump f rest
  | .num n, fuel, rest, _, hf, hns => by
      cases fuel with
      | zero => exact absurd hf (by omega)
      | succ f => exact parseVal_num_dump f n rest hns
  | .str s, fuel, rest, hwf, hf, _ => by
      cases fuel with
      | zero => exact absurd hf (by omega)
      | succ f =>
          refine parseVal_str_dump f s rest ?_
          simpa [wfJson] using hwf
  | .arr [], fuel, rest, _, hf, _ => by
      cases fuel with
      | zero => exact absurd hf (by omega)
      | succ f => exact parseVal_arr_nil f rest
  | .arr (x :: xs), fuel, rest, hwf, hf, _ => by
      cases fuel with
      | zero => exact absurd hf (by omega)
      | succ f =>
          have hw : wfList (x :: xs) = true := by simpa [wfJson] using hwf
          have hlen : (dumpJson x ++ dumpArrTail xs).length + 1 < f := by
            have : (dumpJson (.arr (x :: xs))).length =
                (dumpJson x ++ dumpArrTail xs).length + 2 := by
              show ('[' :: (dumpJson x ++ (dumpArrTail xs ++ [']']))).length = _
              simp
              omega
            omega
          rw [parseVal_arr_step, rt_elems x xs f rest hw hlen]
  | .obj [], fuel, rest, _, hf, _ => by
      cases fuel with
      | zero => exact absurd hf (by omega)
      | succ f => exact parseVal_obj_nil f rest
  | .obj (m :: ms), fuel, rest, hwf, hf, _ => by
      cases fuel with
      | zero => exact absurd hf (by omega)
      | succ f =>
          have hw : wfMembers (m :: ms) = true := by
            simp only [wfJson, Bool.and_eq_true] at hwf
            exact hwf.2
          have hnd : nodupKeys (m :: ms) = true := by
            simp only [wfJson, Bool.and_eq_true] at hwf
            exact hwf.1
          have hlen : (dumpMember m ++ dumpObjTail ms).length + 1 < f := by
            have : (dumpJson (.obj (m :: ms))).length =
                (dumpMember m ++ dumpObjTail ms).length + 2 := by
              show (lbrace :: (dumpMember m ++ (dumpObjTail ms ++ [rbrace]))).length = _
              simp
              omega
            omega
          rw [parseVal_obj_step, rt_members m ms f rest hw hlen]
          show some (Json.obj (pyDict (m :: ms)), rest) =
            some (Json.obj (m :: ms), rest)
          rw [pyDict_nodup (m :: ms) hnd]
termination_by v _ _ _ _ _ => sizeOf v

/-- Parsing a rendered non-empty element list up to the closing bracket
recovers the elements. -/
theorem rt_elems : ∀ (x : Json) (xs : List Json) (fuel : Nat) (rest : List Char),
    wfList (x :: xs) = true → (dumpJson x ++ dumpArrTail xs).length + 1 < fuel →
    parseElems fuel (dumpJson x ++ (dumpArrTail xs ++ ']' :: rest)) =
      some (x :: xs, rest)
  | x, [], fuel, rest, hw, hf => by
      cases fuel with
      | zero => exact absurd hf (by omega)
      | succ f =>
          have hwx : wfJson x = true := by
            simp only [wfList, Bool.and_eq_true] at hw
            exact hw.1
          have hlx : (dumpJson x).length < f := by
            simp only [List.length_append] at hf
            omega
          have hv := rt_val x f (']' :: rest) hwx hlx (by rfl)
          rw [show dumpArrTail ([] : List Json) ++ ']' :: rest = ']' :: rest from rfl,
            parseElems_succ_eq, hv]
          rfl
  | x, y :: ys, fuel, rest, hw, hf => by
      cases fuel with
      | zero => exact absurd hf (by omega)
      | succ f =>
          have hwx : wfJson x = true := by
            simp only [wfList, Bool.and_eq_true] at hw
            exact hw.1
          have hwt : wfList (y :: ys) = true := by
            simp only [wfList, Bool.and_eq_true] at hw
            simp only [wfList, Bool.and_eq_true]
            exact ⟨hw.2.1, hw.2.2⟩
          have htail : dumpArrTail (y :: ys) ++ ']' :: rest =
              ',' :: ' ' :: (dumpJson y ++ (dumpArrTail ys ++ ']' :: rest)) := by
            show ',' :: ' ' :: (dumpJson y ++ dumpArrTail ys) ++ ']' :: rest = _
            simp
          have hlx : (dumpJson x).length < f := by
            simp only [List.length_append] at hf
            omega
          have hlt : (dumpJson y ++ dumpArrTail ys).length + 1 < f := by
            have : (dumpArrTail (y :: ys)).length =
                (dumpJson y ++ dumpArrTail ys).length + 2 := by
              show (',' :: ' ' :: (dumpJson y ++ dumpArrTail ys)).length = _
              simp
            simp only [List.length_append] at hf ⊢
            simp only [List.length_append] at this
            omega
          have hv := rt_val x f (dumpArrTail (y :: ys) ++ ']' :: rest) hwx hlx
            (by rw [htail]; rfl)
          have hrec : parseElems f (' ' :: (dumpJson y ++
              (dumpArrTail ys ++ ']' :: rest))) = some (y :: ys, rest) := by
            rw [parseElems_space]
            exact rt_elems y ys f rest hwt hlt
          rw [parseElems_succ_eq, hv, htail]
          simp only [skipWs_cons_false (show jsonWs ',' = false from by decide), hrec]
termination_by x xs _ _ _ _ => sizeOf x + sizeOf xs

/-- Parsing a rendered non-empty member list up to the closing brace
recovers the members. -/
theorem rt_members : ∀ (m : String × Json) (ms : List (String × Json)) (fuel : Nat)
    (rest : List Char),
    wfMembers (m :: ms) = true → (dumpMember m ++ dumpObjTail ms).length + 1 < fuel →
    parseMembers fuel (dumpMember m ++ (dumpObjTail ms ++ rbrace :: rest)) =
      some (m :: ms, rest)
  | (k, v), ms, fuel, rest, hw, hf => by
      cases fuel with
      | zero => exact absurd hf (by omega)
      | succ f =>
          simp only [wfMembers, Bool.and_eq_true] at hw
          obtain ⟨⟨hk, hwv⟩, hwtail⟩ := hw
          have hcs : dumpMember (k, v) ++ (dumpObjTail ms ++ rbrace :: rest) =
              '"' :: (escAll k.data ++ '"' ::
                (':' :: ' ' :: (dumpJson v ++ (dumpObjTail ms ++ rbrace :: rest)))) := by
            show (dumpStr k ++ ':' :: ' ' :: dumpJson v) ++
              (dumpObjTail ms ++ rbrace :: rest) = _
            show ('"' :: (escAll k.data ++ ['"']) ++ ':' :: ' ' :: dumpJson v) ++
              (dumpObjTail ms ++ rbrace :: rest) = _
            simp
          have hlv : (dumpJson v).length < f := by
            have : (dumpMember (k, v)).length = (dumpStr k).length + 2 +
                (dumpJson v).length := by
              show (dumpStr k ++ ':' :: ' ' :: dumpJson v).length = _
              simp
              omega
            simp only [List.length_append] at hf
            omega
          have hns : numStop (dumpObjTail ms ++ rbrace :: rest) = true := by
            cases ms <;> rfl
          have hv := rt_val v f (dumpObjTail ms ++ rbrace :: rest) hwv hlv hns
          have hkey := parseStrBody_escAll k.data hk []
            (':' :: ' ' :: (dumpJson v ++ (dumpObjTail ms ++ rbrace :: rest)))
          rw [parseMembers_succ_eq, hcs, skipWs_cons_false (by decide)]
          simp only [hkey, List.reverse_nil, List.nil_append,
            skipWs_cons_false (show jsonWs ':' = false from by decide),
            parseVal_space, hv]
          cases ms with
          | nil => rfl
          | cons m' ms' =>
              have htail : dumpObjTail (m' :: ms') ++ rbrace :: rest =
                  ',' :: ' ' :: (dumpMember m' ++
                    (dumpObjTail ms' ++ rbrace :: rest)) := by
                show ',' :: ' ' :: (dumpMember m' ++ dumpObjTail ms') ++
                  rbrace :: rest = _
                simp
              have hlt : (dumpMember m' ++ dumpObjTail ms').length + 1 < f := by
                have : (dumpObjTail (m' :: ms')).length =
                    (dumpMember m' ++ dumpObjTail ms').length + 2 := by
                  show (',' :: ' ' :: (dumpMember m' ++ dumpObjTail ms')).length = _
                  simp
                simp only [List.length_append] at hf ⊢
                simp only [List.length_append] at this
                omega
              have hrec : parseMembers f (' ' :: (dumpMember m' ++
                  (dumpObjTail ms' ++ rbrace :: rest))) = some (m' :: ms', rest) := by
                rw [parseMembers_space]
                exact rt_members m' ms' f rest hwtail hlt
              rw [htail]
              simp only [skipWs_cons_false
                (show jsonWs ',' = false from by decide), hrec]
termination_by m ms _ _ _ _ => sizeOf m + sizeOf ms
end

/-- `json.loads` recovers every well-formed value from its own rendering. -/
theorem jsonLoads_dump (v : Json) (h : wfJson v = true) :
    jsonLoads (dumpJson v) = some v := by
  have hv := rt_val v ((dumpJson v).length + 1) [] h (by omega) (by rfl)
  rw [List.append_nil] at hv
  simp [jsonLoads, hv, skipWs]

/-- `_validate_type` accepts any value whose structure matches the expected
type, returning it unchanged. -/
theorem validate_type_matches (v : Json) (t : ExpectedType)
    (h : kindMatches t v = true) : JSONParser.validate_type v t = .ok v := by
  cases t <;> cases v <;> simp_all [kindMatches, JSONParser.validate_type]

/-- C8, counterexample: the serialization of the well-formed object
`\x7b"a": "b"\x7d` is embedded in the input surrounded by prose, yet
`parse_response` with expected type dict fails with the
all-strategies-failed error: the prose contains an earlier opening brace,
so strategy 3's greedy span starts there and is not valid JSON, and no
other strategy applies. -/
theorem c8_counterexample :
    wfJson (Json.obj [("a", Json.str "b")]) = true ∧
    (dumpJson (Json.obj [("a", Json.str "b")])) <:+:
      "x\x7by \x7b\"a\": \"b\"\x7d".data ∧
    JSONParser.parse_response "x\x7by \x7b\"a\": \"b\"\x7d" .dict =
      .error (JSONParser.allFailedMsg "x\x7by \x7b\"a\": \"b\"\x7d" .dict) := by
  refine ⟨by decide, ⟨"x\x7by ".data, [], by decide⟩, ?_⟩
  rfl

/-- C8, amended: `parse_response` with a matching expected type recovers
every well-formed value from its bare serialization, and recovers the
object `\x7b"a": 1\x7d` from the fenced scenario input — but not from
arbitrary surrounding prose. -/
theorem c8_bare_and_fenced :
    (∀ (v : Json) (t : ExpectedType), wfJson v = true → kindMatches t v = true →
      JSONParser.parse_response (String.mk (dumpJson v)) t = .ok v) ∧
    JSONParser.parse_response "Intro text\n```json\n\x7b\"a\": 1\x7d\n```\ntrailing"
      .dict = .ok (Json.obj [("a", Json.num 1)]) := by
  constructor
  · intro v t hwf hkm
    have hne : dumpJson v ≠ [] := by
      obtain ⟨c, tl, hct, -, -, -, -⟩ := dump_head v
      rw [hct]
      simp
    have hdata : (String.mk (dumpJson v)).data = dumpJson v := rfl
    have hL : jsonLoads (dumpJson v) = some v := jsonLoads_dump v hwf
    rw [JSONParser.parse_response, hdata, pyStrip_dump v]
    simp only [if_neg hne, hL]
    exact validate_type_matches v t hkm
  · rfl

/-- C8, witness: a concrete two-key object round-trips bare through
`parse_response` with expected type dict. -/
theorem c8_witness :
    (wfJson (Json.obj [("k", Json.str "val"), ("n", Json.num (-3))]) = true ∧
      kindMatches .dict (Json.obj [("k", Json.str "val"), ("n", Json.num (-3))]) =
        true) ∧
    JSONParser.parse_response
        (String.mk (dumpJson (Json.obj [("k", Json.str "val"), ("n", Json.num (-3))])))
        .dict = .ok (Json.obj [("k", Json.str "val"), ("n", Json.num (-3))]) :=
  ⟨⟨by decide, by decide⟩,
    c8_bare_and_fenced.1 (Json.obj [("k", Json.str "val"), ("n", Json.num (-3))])
      .dict (by decide) (by decide)⟩

end BaseAgent
